import Mathlib

/-!
Shallow embedding of the Dixit turn engine (`game.py`) and verification of
the specification's claims about it.

Modelling conventions:
* A card is its filename (an opaque comparable identifier).
* Python object references to players are modelled as indices into the
  ordered `players` list (each list element is a distinct object, so
  reference equality is index equality).
* `list.pop()` (from the end), `list.pop(i)` and Python's signed list
  indexing (`board[guess_idx]`, which wraps negative indices and raises
  `IndexError` only outside `[-len, len)`) are modelled explicitly.
* `random.randrange` / `random.choice` / `random.shuffle` and the opaque
  Decision-Provider calls are modelled by oracle parameters; wherever the
  source guarantees validity of a random draw (`randrange(len(hand))`), the
  oracle value is reduced modulo the same bound.
-/

abbrev Card := String

/-- A player object: name, score and hand (`Player.__init__`); `is_ai`
records the decision strategy chosen at construction. -/
structure Player where
  name : String
  score : Nat
  hand : List Card
  is_ai : Bool
deriving DecidableEq, Repr

/-- A board entry `{'player': Player, 'card': card}`; the player reference
is the index of the owner in the `players` list. -/
structure Submission where
  owner : Nat
  card : Card
deriving DecidableEq, Repr

/-- Python list indexing `l[i]` for a possibly negative `i`: negative
indices wrap (`l[-1]` is the last element); the result is `none` exactly
when Python raises `IndexError`. -/
def pyGet (l : List α) (i : Int) : Option α :=
  if 0 ≤ i then l.get? i.toNat
  else
    let j : Int := (l.length : Int) + i
    if 0 ≤ j then l.get? j.toNat else none

/-- `players[i].score += d`: mutate the score of the i-th player object. -/
def bumpScore : List Player → Nat → Nat → List Player
  | [], _, _ => []
  | p :: ps, 0, d => { p with score := p.score + d } :: ps
  | p :: ps, i + 1, d => p :: bumpScore ps i d

/-- `next((p for p in self.players if p.name == p_name), None)`: index of
the first player with the given name. -/
def lookupPlayer : List Player → String → Option Nat
  | [], _ => none
  | p :: ps, n => if p.name == n then some 0 else (lookupPlayer ps n).map (· + 1)

/-- The scan of `_update_scores` locating the storyteller's card on the
board (first index whose card matches; `-1` sentinel becomes `none`). -/
def findStorytellerIdx : List Submission → Card → Option Nat
  | [], _ => none
  | s :: bs, c => if s.card == c then some 0 else (findStorytellerIdx bs c).map (· + 1)

/-- `correct_guess_players`: the (indices of the) players whose recorded
guess equals the storyteller's board position `S`. -/
def correctGuessers (players : List Player) (S : Nat) (guesses : List (String × Int)) :
    List Nat :=
  guesses.filterMap fun g =>
    match lookupPlayer players g.1 with
    | some i => if g.2 == (S : Int) then some i else none
    | none => none

/-- The loop `for player in self.players: if player != storyteller:
player.score += 2`, walking the list with its position (`i` is the index of
the head of the remaining list; `player != storyteller` is reference
inequality, i.e. index inequality). -/
def addTwoLoop (stOwner : Nat) : List Player → Nat → List Player
  | [], _ => []
  | p :: ps, i =>
    (if i ≠ stOwner then { p with score := p.score + 2 } else p) ::
      addTwoLoop stOwner ps (i + 1)

/-- The bucket stage of `_update_scores` (lines 391-403): +2 to every
non-storyteller when the correct count is extremal, otherwise +3 to the
storyteller and +3 to each correct guesser. -/
def bucketStage (players : List Player) (stOwner : Nat) (correct : List Nat) :
    List Player :=
  if correct.length == players.length - 1 || correct.length == 0 then
    addTwoLoop stOwner players 0
  else
    correct.foldl (fun ps i => bumpScore ps i 3) (bumpScore players stOwner 3)

/-- One iteration of the fooling-bonus loop of `_update_scores`
(lines 405-414): a wrong guess awards +1 to the owner of the board entry at
the guessed position, unless that owner is the storyteller; an
`IndexError` on `self.board[guess_idx]` is caught and skipped. -/
def foolingStep (stOwner : Nat) (S : Nat) (board : List Submission)
    (ps : List Player) (g : String × Int) : List Player :=
  match lookupPlayer ps g.1 with
  | none => ps
  | some _ =>
    if g.2 ≠ (S : Int) then
      match pyGet board g.2 with
      | some sub => if sub.owner ≠ stOwner then bumpScore ps sub.owner 1 else ps
      | none => ps
    else ps

/-- `Game._update_scores`: locate the storyteller's card (returning with
scores untouched if absent or if there are fewer than two players), apply
the bucket stage, then the fooling-bonus loop. -/
def update_scores (players : List Player) (stSub : Submission)
    (board : List Submission) (guesses : List (String × Int)) : List Player :=
  match findStorytellerIdx board stSub.card with
  | none => players
  | some S =>
    if players.length ≤ 1 then players
    else
      guesses.foldl (foolingStep stSub.owner S board)
        (bucketStage players stSub.owner (correctGuessers players S guesses))

/-- Score of the i-th player (0 if out of range), used to state theorems. -/
def scoreAt (ps : List Player) (i : Nat) : Nat :=
  ((ps.get? i).map Player.score).getD 0

/-- Oracle inputs standing for the `random.*` draws, the opaque
`ai_interface` calls, and human console input consumed during one turn.
Per-player inputs are indexed by the player's position in the roster. -/
structure Oracle where
  stIdx : Nat
  stClue : Option String
  stHuman : List (String × Int)
  subRaw : Nat → Option Int
  subFallback : Nat → Nat
  subHuman : Nat → List Int
  guessRaw : Nat → Int
  guessFallback : Nat → Nat
  guessHuman : Nat → List Int
  shuffleBoard : List Submission → List Submission
  shuffleDeck : List Card → List Card

/-- Does the string contain `AI` as a substring (the `"AI" in name` test of
`Game.__init__`)? -/
def hasAI : List Char → Bool
  | [] => false
  | [_] => false
  | c :: d :: rest => (c == 'A' && d == 'I') || hasAI (d :: rest)

def isAiName (n : String) : Bool := hasAI n.toList

/-- `Player.provide_clue` (lines 32-79). Result: `none` when the human
input loop never receives a valid (clue, index) pair (the program loops
forever); `some none` when the hand is empty (`(None, None)`); otherwise
the clue, the popped card, and the updated player. `random.randrange`
always yields a valid index, modelled by reducing the oracle draw modulo
the hand length; the human loop accepts the first non-empty clue paired
with an in-range index. -/
def provide_clue (p : Player) (o : Oracle) : Option (Option (String × Card × Player)) :=
  if p.hand = [] then some none
  else if p.is_ai then
    let i := o.stIdx % p.hand.length
    let card := (p.hand.get? i).getD ""
    let clue :=
      match o.stClue with
      | some c => c
      | none => "AI Clue: " ++ ((card.splitOn ".").headD "")
    some (some (clue, card, { p with hand := p.hand.eraseIdx i }))
  else
    match o.stHuman.find? (fun a =>
        (a.1 != "") && decide (0 ≤ a.2) && decide (a.2 < (p.hand.length : Int))) with
    | some a =>
      some (some (a.1, (p.hand.get? a.2.toNat).getD "",
        { p with hand := p.hand.eraseIdx a.2.toNat }))
    | none => none

/-- `Player.submit_card` (lines 81-121). `raw` is the opaque
`choose_card_for_clue` answer; an absent or out-of-range answer falls back
to a random valid index (`fallback` reduced modulo the hand length).
`none` / `some none` as in `provide_clue`. -/
def submit_card (p : Player) (raw : Option Int) (fallback : Nat)
    (humanInputs : List Int) : Option (Option (Card × Player)) :=
  if p.hand = [] then some none
  else if p.is_ai then
    let n := p.hand.length
    let i : Nat :=
      match raw with
      | some k => if 0 ≤ k ∧ k < (n : Int) then k.toNat else fallback % n
      | none => fallback % n
    some (some ((p.hand.get? i).getD "", { p with hand := p.hand.eraseIdx i }))
  else
    match humanInputs.find? (fun k =>
        decide (0 ≤ k) && decide (k < (p.hand.length : Int))) with
    | some k =>
      some (some ((p.hand.get? k.toNat).getD "",
        { p with hand := p.hand.eraseIdx k.toNat }))
    | none => none

/-- `[i for i, fname in enumerate(displayed_cards) if fname !=
player_submitted_card_filename]`; `i` is the index of the head of the
remaining list. A `none` own-card compares unequal to every filename,
exactly as `str != None` is always true. -/
def possibleIndices (own : Option Card) : List Card → Nat → List Nat
  | [], _ => []
  | f :: fs, i =>
    (if some f ≠ own then [i] else []) ++ possibleIndices own fs (i + 1)

/-- `random.choice(possible_indices) if possible_indices else 0`: the
fallback of the AI guess branch, picking among the indices of cards other
than the player's own. -/
def fallbackPick (displayed : List Card) (own : Option Card) (r : Nat) : Nat :=
  if possibleIndices own displayed 0 = [] then 0
  else ((possibleIndices own displayed 0).get?
    (r % (possibleIndices own displayed 0).length)).getD 0

/-- The AI branch of `Player.guess_card` (lines 135-157): an out-of-range
raw answer, or one that names the player's own card, is replaced by a
random pick among the indices of other cards (`0` if there are none). -/
def guess_card_ai (displayed : List Card) (own : Option Card) (raw : Int)
    (r : Nat) : Nat :=
  if ¬ (0 ≤ raw ∧ raw < (displayed.length : Int)) then
    fallbackPick displayed own r
  else if some ((displayed.get? raw.toNat).getD "") = own then
    fallbackPick displayed own r
  else raw.toNat

/-- The human branch of `Player.guess_card` (lines 158-183): the loop
accepts the first input that is in range and does not name the player's
own card; `none` when no attempted input is ever valid. -/
def guess_card_human (displayed : List Card) (own : Option Card)
    (inputs : List Int) : Option Nat :=
  (inputs.find? fun g =>
    decide (0 ≤ g) && decide (g < (displayed.length : Int)) &&
      ! decide (some ((displayed.get? g.toNat).getD "") = own)).map Int.toNat

/-- `Player.guess_card` (lines 124-183). -/
def guess_card (p_is_ai : Bool) (displayed : List Card) (own : Option Card)
    (raw : Int) (r : Nat) (humanInputs : List Int) : Option Nat :=
  if p_is_ai then some (guess_card_ai displayed own raw r)
  else guess_card_human displayed own humanInputs

/-- The submission phase of `Game.play_turn` (lines 302-311): every player
other than the storyteller (reference equality = index equality) submits;
a player with an empty hand contributes no submission. -/
def doSubmissions (st : Nat) (o : Oracle) :
    List Player → Nat → Option (List Player × List Submission)
  | [], _ => some ([], [])
  | p :: ps, i =>
    if i = st then
      match doSubmissions st o ps (i + 1) with
      | none => none
      | some r => some (p :: r.1, r.2)
    else
      match submit_card p (o.subRaw i) (o.subFallback i) (o.subHuman i) with
      | none => none
      | some none =>
        match doSubmissions st o ps (i + 1) with
        | none => none
        | some r => some (p :: r.1, r.2)
      | some (some (c, p')) =>
        match doSubmissions st o ps (i + 1) with
        | none => none
        | some r => some (p' :: r.1, ⟨i, c⟩ :: r.2)

/-- `displayed_filenames = [submission['card'] for submission in self.board]`. -/
def displayedFilenames (board : List Submission) : List Card :=
  board.map Submission.card

/-- The scan of `play_turn` (lines 327-331) recovering the card a guesser
submitted this round: first submission owned by player `i`. -/
def ownSubmissionCard (subs : List Submission) (i : Nat) : Option Card :=
  (subs.find? fun sb => sb.owner == i).map Submission.card

/-- `guesses[player.name] = guess_index` on a Python dict: overwrite in
place if the key exists, else append. -/
def dictInsert (d : List (String × Int)) (k : String) (v : Int) :
    List (String × Int) :=
  if d.any fun e => e.1 == k then
    d.map fun e => if e.1 == k then (k, v) else e
  else d ++ [(k, v)]

/-- The guess phase of `Game.play_turn` (lines 321-338): every
non-storyteller guesses on the full displayed board, and the returned
index is recorded directly under the player's name. -/
def collectGuesses (st : Nat) (subs : List Submission) (displayed : List Card)
    (o : Oracle) : List Player → Nat → List (String × Int) → Option (List (String × Int))
  | [], _, acc => some acc
  | p :: ps, i, acc =>
    if i = st then collectGuesses st subs displayed o ps (i + 1) acc
    else
      match guess_card p.is_ai displayed (ownSubmissionCard subs i)
          (o.guessRaw i) (o.guessFallback i) (o.guessHuman i) with
      | none => none
      | some g => collectGuesses st subs displayed o ps (i + 1) (dictInsert acc p.name (g : Int))

/-- `while len(player.hand) < self.hand_size and self.deck:
hand.append(deck.pop())` — `deck.pop()` takes the last element. The loop
runs at most `hand_size - len(hand)` times, which is used as fuel. -/
def drawLoopFuel (hs : Nat) : Nat → List Card → List Card → List Card × List Card
  | 0, hand, deck => (hand, deck)
  | fuel + 1, hand, deck =>
    if hand.length < hs ∧ deck ≠ [] then
      drawLoopFuel hs fuel (hand ++ [deck.getLast?.getD ""]) deck.dropLast
    else (hand, deck)

def drawLoop (hs : Nat) (hand deck : List Card) : List Card × List Card :=
  drawLoopFuel hs (hs - hand.length) hand deck

/-- The per-player loop shared by `_deal_cards` (lines 277-281) and
`_replenish_hands` (lines 434-438): each player in order draws up to the
hand size, threading the deck. -/
def replenishPlayers (hs : Nat) : List Player → List Card → List Player × List Card
  | [], deck => ([], deck)
  | p :: ps, deck =>
    let hd := drawLoop hs p.hand deck
    let rest := replenishPlayers hs ps hd.2
    ({ p with hand := hd.1 } :: rest.1, rest.2)

/-- `Game._replenish_hands` (lines 422-440): only when the deck is empty
on entry is the discard pile reshuffled into it (if the discard pile is
empty too, return immediately); then every player draws up to the hand
size. Returns (players, deck, discard). -/
def replenish_hands (hs : Nat) (shuffleDeck : List Card → List Card)
    (players : List Player) (deck discard : List Card) :
    List Player × List Card × List Card :=
  if deck = [] then
    if discard = [] then (players, deck, discard)
    else
      let deck1 := shuffleDeck (deck ++ discard)
      let r := replenishPlayers hs players deck1
      (r.1, r.2, [])
  else
    let r := replenishPlayers hs players deck
    (r.1, r.2, discard)

/-- The mutable state of `Game`. -/
structure GameState where
  players : List Player
  deck : List Card
  discard_pile : List Card
  board : List Submission
  storyteller_index : Nat
  hand_size : Nat
  max_score : Nat
  current_clue : String
deriving DecidableEq, Repr

/-- `Game.is_game_over` (lines 442-458). -/
def is_game_over (s : GameState) : Bool :=
  (s.players.any fun p => s.max_score ≤ p.score) ||
    ((s.players.any fun p => p.hand.length < s.hand_size)
      && s.deck.isEmpty && s.discard_pile.isEmpty)

/-- `Game._advance_storyteller` (lines 417-420). -/
def advance_storyteller (s : GameState) : GameState :=
  { s with storyteller_index := (s.storyteller_index + 1) % s.players.length }

/-- `Game.play_turn` (lines 283-359). `none` models a run that raises or
never returns (roster index error, or a human player who never enters a
valid input); `some` is the state after a completed or skipped turn. -/
def play_turn (s : GameState) (o : Oracle) : Option GameState :=
  if is_game_over s then some s
  else
    match s.players.get? s.storyteller_index with
    | none => none
    | some storyteller =>
      match provide_clue storyteller o with
      | none => none
      | some none =>
        let s1 := advance_storyteller s
        let r := replenish_hands s1.hand_size o.shuffleDeck s1.players s1.deck s1.discard_pile
        some { s1 with players := r.1, deck := r.2.1, discard_pile := r.2.2 }
      | some (some (_clue, stCard, storyteller')) =>
        let players1 := s.players.set s.storyteller_index storyteller'
        match doSubmissions s.storyteller_index o players1 0 with
        | none => none
        | some (players2, subs) =>
          let stSub : Submission := ⟨s.storyteller_index, stCard⟩
          let board := o.shuffleBoard (stSub :: subs)
          let displayed := displayedFilenames board
          match collectGuesses s.storyteller_index subs displayed o players2 0 [] with
          | none => none
          | some guesses =>
            let players3 := update_scores players2 stSub board guesses
            let discard1 := s.discard_pile ++ displayedFilenames board
            let r := replenish_hands s.hand_size o.shuffleDeck players3 s.deck discard1
            some (advance_storyteller
              { s with players := r.1, deck := r.2.1, discard_pile := r.2.2,
                       board := [], current_clue := "" })

/-- The initial state built at the end of `Game.__init__` from the deck
that passed the sufficiency check: `_deal_cards`, storyteller 0, empty
discard pile and board. -/
def initialGameState (players : List Player) (deckUsed : List Card)
    (hand_size max_score : Nat) : GameState :=
  let r := replenishPlayers hand_size players deckUsed
  { players := r.1, deck := r.2, discard_pile := [], board := [],
    storyteller_index := 0, hand_size := hand_size, max_score := max_score,
    current_clue := "" }

/-- `Game.__init__` (lines 187-210). `deck0` is the card pool listed from
disk; `dummyReload` models the `_create_dummy_cards` fallback (`none` when
creation fails, otherwise the reloaded pool). `none` is the raised
`ValueError`: no game state is produced. -/
def gameInit (player_names : List String) (hand_size max_score : Nat)
    (deck0 : List Card) (dummyReload : Option (List Card)) : Option GameState :=
  let players := player_names.map fun n =>
    { name := n, score := 0, hand := [], is_ai := isAiName n }
  if deck0 = [] ∨ deck0.length < players.length * hand_size then
    match dummyReload with
    | none => none
    | some deck1 =>
      if deck1 = [] ∨ deck1.length < players.length * hand_size then none
      else some (initialGameState players deck1 hand_size max_score)
  else some (initialGameState players deck0 hand_size max_score)

/-- All cards held in player hands, in roster order. -/
def handsCards (players : List Player) : List Card :=
  players.flatMap Player.hand

/-- The multiset of all cards in the state: draw pile, discard pile, every
hand, and the board. -/
def allCards (s : GameState) : Multiset Card :=
  (s.deck : Multiset Card) + (s.discard_pile : Multiset Card)
    + (handsCards s.players : Multiset Card)
    + (displayedFilenames s.board : Multiset Card)

/-! ### Concrete fixtures used to evaluate the definitions -/

/-- The four players of the §8 scoring scenario (scores start at 0). -/
def pA : Player := { name := "A", score := 0, hand := [], is_ai := false }

def pB : Player := { name := "B", score := 0, hand := [], is_ai := false }

def pC : Player := { name := "C", score := 0, hand := [], is_ai := false }

def pD : Player := { name := "D", score := 0, hand := [], is_ai := false }

/-- §8 board: storyteller A's card `x` at shuffled position 1; B, C, D own
positions 0, 2, 3. -/
def demoBoard : List Submission := [⟨1, "b"⟩, ⟨0, "x"⟩, ⟨2, "c"⟩, ⟨3, "d"⟩]

/-- §8 guesses: B guesses 2, C and D guess 1. -/
def demoGuesses : List (String × Int) := [("B", 2), ("C", 1), ("D", 1)]

/-- A concrete oracle: every provider answer is 0 / absent, both shuffles
are the identity permutation. -/
def oDemo : Oracle :=
  { stIdx := 0, stClue := none, stHuman := [],
    subRaw := fun _ => some 0, subFallback := fun _ => 0, subHuman := fun _ => [],
    guessRaw := fun _ => 0, guessFallback := fun _ => 0, guessHuman := fun _ => [],
    shuffleBoard := id, shuffleDeck := id }

/-- Three automated players for concrete turn runs. -/
def qA : Player := { name := "A", score := 0, hand := [], is_ai := true }

def qB : Player := { name := "B", score := 0, hand := [], is_ai := true }

def qC : Player := { name := "C", score := 0, hand := [], is_ai := true }

/-- A concrete 3-player round: storyteller A (index 0) played card `x`,
which landed at shuffled position 1; B's card `b` is at position 0 and
C's card `c` at position 2. -/
def c4Board : List Submission := [⟨1, "b"⟩, ⟨0, "x"⟩, ⟨2, "c"⟩]

/-- The non-storyteller submissions of the `c4Board` round. -/
def c4Subs : List Submission := [⟨1, "b"⟩, ⟨2, "c"⟩]

/-- A concrete mid-game state: three automated players holding two cards
each, two cards left in the draw pile. -/
def gameC6 : GameState :=
  { players := [{ name := "AI-A", score := 0, hand := ["c8", "c7"], is_ai := true },
                { name := "AI-B", score := 0, hand := ["c6", "c5"], is_ai := true },
                { name := "AI-C", score := 0, hand := ["c4", "c3"], is_ai := true }],
    deck := ["c1", "c2"], discard_pile := [], board := [],
    storyteller_index := 0, hand_size := 2, max_score := 30, current_clue := "" }

/-- The state `play_turn gameC6 oDemo` computes to. -/
def gameC6After : GameState :=
  { players := [{ name := "AI-A", score := 0, hand := ["c7", "c2"], is_ai := true },
                { name := "AI-B", score := 2, hand := ["c5", "c1"], is_ai := true },
                { name := "AI-C", score := 2, hand := ["c3"], is_ai := true }],
    deck := [], discard_pile := ["c8", "c6", "c4"], board := [],
    storyteller_index := 1, hand_size := 2, max_score := 30, current_clue := "" }

/-! ### Helper lemmas about the scoring primitives -/

theorem bumpScore_length (ps : List Player) (j d : Nat) :
    (bumpScore ps j d).length = ps.length := by
  induction ps generalizing j with
  | nil => rfl
  | cons p ps ih =>
    cases j with
    | zero => rfl
    | succ j => simpa [bumpScore] using ih j

theorem scoreAt_bumpScore_ne (ps : List Player) {i j : Nat} (d : Nat) (h : i ≠ j) :
    scoreAt (bumpScore ps j d) i = scoreAt ps i := by
  induction ps generalizing i j with
  | nil => rfl
  | cons p ps ih =>
    cases j with
    | zero =>
      cases i with
      | zero => exact absurd rfl h
      | succ i => rfl
    | succ j =>
      cases i with
      | zero => rfl
      | succ i =>
        have : i ≠ j := fun hij => h (by simpa using hij)
        simpa [bumpScore, scoreAt] using ih this

theorem scoreAt_bumpScore_self (ps : List Player) {j : Nat} (d : Nat)
    (h : j < ps.length) : scoreAt (bumpScore ps j d) j = scoreAt ps j + d := by
  induction ps generalizing j with
  | nil => simp at h
  | cons p ps ih =>
    cases j with
    | zero => rfl
    | succ j =>
      have hj : j < ps.length := by simpa using h
      simpa [bumpScore, scoreAt] using ih hj

theorem bumpScore_map_name (ps : List Player) (j d : Nat) :
    (bumpScore ps j d).map Player.name = ps.map Player.name := by
  induction ps generalizing j with
  | nil => rfl
  | cons p ps ih =>
    cases j with
    | zero => rfl
    | succ j => simpa [bumpScore] using ih j

theorem bumpScore_map_hand (ps : List Player) (j d : Nat) :
    (bumpScore ps j d).map Player.hand = ps.map Player.hand := by
  induction ps generalizing j with
  | nil => rfl
  | cons p ps ih =>
    cases j with
    | zero => rfl
    | succ j => simpa [bumpScore] using ih j

theorem lookupPlayer_congr {ps qs : List Player}
    (h : ps.map Player.name = qs.map Player.name) (n : String) :
    lookupPlayer ps n = lookupPlayer qs n := by
  induction ps generalizing qs with
  | nil => cases qs with
    | nil => rfl
    | cons q qs => simp at h
  | cons p ps ih =>
    cases qs with
    | nil => simp at h
    | cons q qs =>
      simp only [List.map_cons, List.cons.injEq] at h
      simp [lookupPlayer, h.1, ih h.2]

theorem lookupPlayer_some {ps : List Player} {n : String} {j : Nat}
    (h : lookupPlayer ps n = some j) :
    ∃ p, ps.get? j = some p ∧ p.name = n := by
  induction ps generalizing j with
  | nil => simp [lookupPlayer] at h
  | cons p ps ih =>
    by_cases hp : p.name = n
    · simp [lookupPlayer, hp] at h
      exact ⟨p, by simp [← h], hp⟩
    · simp only [lookupPlayer, beq_iff_eq, hp, if_false, Option.map_eq_some'] at h
      obtain ⟨j', hj', rfl⟩ := h
      obtain ⟨q, hq, hqn⟩ := ih hj'
      exact ⟨q, by simpa using hq, hqn⟩

theorem lookupPlayer_inj {ps : List Player} {n m : String} {j : Nat}
    (hn : lookupPlayer ps n = some j) (hm : lookupPlayer ps m = some j) : n = m := by
  obtain ⟨p, hp, hpn⟩ := lookupPlayer_some hn
  obtain ⟨q, hq, hqm⟩ := lookupPlayer_some hm
  rw [hp] at hq
  cases hq
  exact hpn ▸ hqm ▸ rfl

theorem lookupPlayer_lt {ps : List Player} {n : String} {j : Nat}
    (h : lookupPlayer ps n = some j) : j < ps.length := by
  obtain ⟨p, hp, -⟩ := lookupPlayer_some h
  exact List.get?_eq_some.mp hp |>.1

theorem scoreAt_addTwoLoop (st : Nat) (ps : List Player) :
    ∀ k i, scoreAt (addTwoLoop st ps k) i
      = if i < ps.length ∧ k + i ≠ st then scoreAt ps i + 2 else scoreAt ps i := by
  induction ps with
  | nil => intro k i; simp [addTwoLoop, scoreAt]
  | cons p ps ih =>
    intro k i
    cases i with
    | zero =>
      by_cases h : k = st
      · simp [addTwoLoop, scoreAt, h]
      · simp [addTwoLoop, scoreAt, h, Nat.succ_pos]
    | succ i =>
      have := ih (k + 1) i
      have harith : k + 1 + i = k + (i + 1) := by omega
      by_cases hlen : i < ps.length
      · by_cases hst : k + (i + 1) = st
        · simp only [addTwoLoop, scoreAt, List.get?_cons_succ] at this ⊢
          rw [this, harith]
          simp [hst, hlen]
        · simp only [addTwoLoop, scoreAt, List.get?_cons_succ] at this ⊢
          rw [this, harith]
          simp [hst, hlen, Nat.succ_lt_succ_iff]
      · simp only [addTwoLoop, scoreAt, List.get?_cons_succ] at this ⊢
        rw [this, harith]
        simp [hlen, Nat.succ_lt_succ_iff]

theorem addTwoLoop_length (st : Nat) (ps : List Player) (k : Nat) :
    (addTwoLoop st ps k).length = ps.length := by
  induction ps generalizing k with
  | nil => rfl
  | cons p ps ih => simpa [addTwoLoop] using ih (k + 1)

theorem foldl_bump3_length (C : List Nat) (ps : List Player) :
    (C.foldl (fun ps i => bumpScore ps i 3) ps).length = ps.length := by
  induction C generalizing ps with
  | nil => rfl
  | cons c C ih => simp [List.foldl_cons, ih, bumpScore_length]

theorem scoreAt_foldl_bump3 (C : List Nat) (ps : List Player) (i : Nat)
    (hi : i < ps.length) :
    scoreAt (C.foldl (fun ps j => bumpScore ps j 3) ps) i
      = scoreAt ps i + 3 * C.count i := by
  induction C generalizing ps with
  | nil => simp
  | cons c C ih =>
    simp only [List.foldl_cons]
    rw [ih _ (by simpa [bumpScore_length] using hi)]
    by_cases hc : c = i
    · subst hc
      rw [scoreAt_bumpScore_self ps 3 hi]
      simp [List.count_cons, Nat.mul_add, Nat.mul_succ]
      omega
    · rw [scoreAt_bumpScore_ne ps 3 (fun h => hc h.symm)]
      simp [List.count_cons, hc]

theorem correctGuessers_length {players : List Player} {S : Nat}
    {guesses : List (String × Int)}
    (hRes : ∀ g ∈ guesses, (lookupPlayer players g.1).isSome) :
    (correctGuessers players S guesses).length
      = guesses.countP fun g => g.2 == (S : Int) := by
  induction guesses with
  | nil => rfl
  | cons g gs ih =>
    have hg := hRes g (List.mem_cons_self g gs)
    obtain ⟨j, hj⟩ := Option.isSome_iff_exists.mp hg
    have hrest : ∀ g ∈ gs, (lookupPlayer players g.1).isSome :=
      fun g hgm => hRes g (List.mem_cons_of_mem _ hgm)
    by_cases hS : g.2 = (S : Int)
    · simp [correctGuessers, List.filterMap_cons, hj, hS, List.countP_cons,
        ← ih hrest, correctGuessers]
    · simp [correctGuessers, List.filterMap_cons, hj, hS, List.countP_cons,
        ← ih hrest, correctGuessers]

theorem correctGuessers_mem {players : List Player} {S : Nat}
    {guesses : List (String × Int)} {i : Nat}
    (h : i ∈ correctGuessers players S guesses) :
    ∃ g ∈ guesses, lookupPlayer players g.1 = some i ∧ g.2 = (S : Int) := by
  obtain ⟨g, hg, hfg⟩ := List.mem_filterMap.mp h
  refine ⟨g, hg, ?_⟩
  rcases hl : lookupPlayer players g.1 with - | j
  · simp [hl] at hfg
  · rw [hl] at hfg
    by_cases hS : g.2 = (S : Int)
    · simp [hS] at hfg
      exact ⟨by rw [hfg], hS⟩
    · simp [hS] at hfg

theorem correctGuessers_nodup {players : List Player} {S : Nat}
    {guesses : List (String × Int)}
    (hNames : (guesses.map Prod.fst).Nodup) :
    (correctGuessers players S guesses).Nodup := by
  have hg : guesses.Nodup := hNames.of_map Prod.fst
  refine hg.filterMap ?_
  intro a b c hca hcb
  rcases hla : lookupPlayer players a.1 with - | ja
  · simp [hla] at hca
  · rcases hlb : lookupPlayer players b.1 with - | jb
    · simp [hlb] at hcb
    · rw [hla] at hca
      rw [hlb] at hcb
      by_cases hSa : a.2 = (S : Int)
      · by_cases hSb : b.2 = (S : Int)
        · simp [hSa] at hca
          simp [hSb] at hcb
          subst hca hcb
          have hn : a.1 = b.1 := lookupPlayer_inj hla hlb
          have : a = (a.1, a.2) := rfl
          rw [this, hn, hSa, ← hSb]
        · simp [hSb] at hcb
      · simp [hSa] at hca

theorem correctGuessers_lt {players : List Player} {S : Nat}
    {guesses : List (String × Int)} {i : Nat}
    (h : i ∈ correctGuessers players S guesses) : i < players.length := by
  obtain ⟨g, -, hg, -⟩ := correctGuessers_mem h
  exact lookupPlayer_lt hg

theorem correctGuessers_not_st {players : List Player} {S stOwner : Nat}
    {guesses : List (String × Int)}
    (hRes : ∀ g ∈ guesses, ∃ j, lookupPlayer players g.1 = some j ∧ j ≠ stOwner) :
    stOwner ∉ correctGuessers players S guesses := by
  intro hmem
  obtain ⟨g, hg, hl, -⟩ := correctGuessers_mem hmem
  obtain ⟨j, hj, hjne⟩ := hRes g hg
  rw [hl] at hj
  cases hj
  exact hjne rfl

/-- C1: in a scored round with at least two non-storyteller guessers (all
of whom resolve to non-storyteller players, with distinct names), the
score deltas of the bucket stage — the stage of `_update_scores` preceding
the fooling bonus — follow the two-bucket rule: if the number of guesses
equal to the storyteller's board position `S` is `0` or equals the number
`M = |players| - 1` of non-storyteller guessers, the storyteller gains 0
and every non-storyteller gains exactly +2; otherwise the storyteller
gains exactly +3, each correct guesser gains exactly +3, and every other
guesser gains 0. -/
theorem spec_C1_bucket_rule
    (players : List Player) (stOwner S : Nat) (guesses : List (String × Int))
    (hM : 3 ≤ players.length)
    (hSt : stOwner < players.length)
    (hRes : ∀ g ∈ guesses, ∃ j, lookupPlayer players g.1 = some j ∧ j ≠ stOwner)
    (hNames : (guesses.map Prod.fst).Nodup) :
    (((guesses.countP fun g => g.2 == (S : Int)) = 0 ∨
        (guesses.countP fun g => g.2 == (S : Int)) = players.length - 1) →
      ∀ i, i < players.length →
        scoreAt (bucketStage players stOwner (correctGuessers players S guesses)) i
          = scoreAt players i + (if i = stOwner then 0 else 2))
    ∧ (((guesses.countP fun g => g.2 == (S : Int)) ≠ 0 ∧
        (guesses.countP fun g => g.2 == (S : Int)) ≠ players.length - 1) →
      ∀ i, i < players.length →
        scoreAt (bucketStage players stOwner (correctGuessers players S guesses)) i
          = scoreAt players i +
            (if i = stOwner then 3
             else if i ∈ correctGuessers players S guesses then 3 else 0)) := by
  have hResSome : ∀ g ∈ guesses, (lookupPlayer players g.1).isSome := by
    intro g hg
    obtain ⟨j, hj, -⟩ := hRes g hg
    simp [hj]
  have hLen := @correctGuessers_length players S guesses hResSome
  constructor
  · intro hcond i hi
    have hbool : ((correctGuessers players S guesses).length == players.length - 1
        || (correctGuessers players S guesses).length == 0) = true := by
      rcases hcond with h0 | hMall
      · simp [hLen, h0]
      · simp [hLen, hMall]
    rw [bucketStage, if_pos hbool, scoreAt_addTwoLoop]
    by_cases hist : i = stOwner
    · simp [hist]
    · simp [hi, hist, Ne.symm]
  · intro hcond i hi
    have hbool : ((correctGuessers players S guesses).length == players.length - 1
        || (correctGuessers players S guesses).length == 0) = false := by
      simp [hLen, hcond.1, hcond.2]
    rw [bucketStage, if_neg (by simp [hbool])]
    rw [scoreAt_foldl_bump3 _ _ _ (by simpa [bumpScore_length] using hi)]
    have hnodup := @correctGuessers_nodup players S guesses hNames
    have hnst := @correctGuessers_not_st players S stOwner guesses hRes
    by_cases hist : i = stOwner
    · subst hist
      rw [scoreAt_bumpScore_self _ _ hSt]
      have : (correctGuessers players S guesses).count i = 0 :=
        List.count_eq_zero.mpr hnst
      simp [this]
    · rw [scoreAt_bumpScore_ne _ _ hist]
      by_cases hmem : i ∈ correctGuessers players S guesses
      · rw [List.count_eq_one_of_mem hnodup hmem]
        simp [hist, hmem]
      · rw [List.count_eq_zero.mpr hmem]
        simp [hist, hmem]

/-- Witness for C1: the §8 round (storyteller A at board position 1,
guesses 2, 1, 1) satisfies the hypotheses, and bucket B gives guesser C
(roster index 2) exactly +3 at the bucket stage. -/
theorem spec_C1_bucket_rule_witness :
    (((demoGuesses.countP fun g => g.2 == ((1 : Nat) : Int)) ≠ 0 ∧
        (demoGuesses.countP fun g => g.2 == ((1 : Nat) : Int))
          ≠ ([pA, pB, pC, pD] : List Player).length - 1) ∧
      2 < ([pA, pB, pC, pD] : List Player).length) ∧
    scoreAt (bucketStage [pA, pB, pC, pD] 0 (correctGuessers [pA, pB, pC, pD] 1 demoGuesses)) 2
      = scoreAt [pA, pB, pC, pD] 2 +
        (if 2 = 0 then 3
         else if 2 ∈ correctGuessers [pA, pB, pC, pD] 1 demoGuesses then 3 else 0) :=
  ⟨⟨by decide, by decide⟩,
    (spec_C1_bucket_rule [pA, pB, pC, pD] 0 1 demoGuesses (by decide) (by decide)
      (by
        intro g hg
        simp only [demoGuesses, List.mem_cons, List.not_mem_nil, or_false] at hg
        rcases hg with rfl | rfl | rfl
        · exact ⟨1, by decide, by decide⟩
        · exact ⟨2, by decide, by decide⟩
        · exact ⟨3, by decide, by decide⟩)
      (by decide)).2 ⟨by decide, by decide⟩ 2 (by decide)⟩

theorem foolingStep_map_name (stOwner S : Nat) (board : List Submission)
    (ps : List Player) (g : String × Int) :
    (foolingStep stOwner S board ps g).map Player.name = ps.map Player.name := by
  unfold foolingStep
  rcases lookupPlayer ps g.1 with - | j
  · rfl
  · by_cases hS : g.2 = (S : Int)
    · simp [hS]
    · rcases pyGet board g.2 with - | sub
      · simp [hS]
      · by_cases ho : sub.owner = stOwner
        · simp [hS, ho]
        · simp [hS, ho, bumpScore_map_name]

theorem foolingStep_length (stOwner S : Nat) (board : List Submission)
    (ps : List Player) (g : String × Int) :
    (foolingStep stOwner S board ps g).length = ps.length := by
  have := foolingStep_map_name stOwner S board ps g
  simpa using congrArg List.length this

theorem scoreAt_foldl_fooling (stOwner S : Nat) (board : List Submission) :
    ∀ (gs : List (String × Int)) (ps : List Player),
      (∀ g ∈ gs, (lookupPlayer ps g.1).isSome) →
      ∀ i, i < ps.length →
        scoreAt (gs.foldl (foolingStep stOwner S board) ps) i
          = scoreAt ps i +
            (if i = stOwner then 0
             else gs.countP fun g =>
               (g.2 != (S : Int)) &&
                 ((pyGet board g.2).map Submission.owner == some i)) := by
  intro gs
  induction gs with
  | nil => intro ps hRes i hi; simp
  | cons g gs ih =>
    intro ps hRes i hi
    have hg := hRes g (List.mem_cons_self g gs)
    obtain ⟨j, hj⟩ := Option.isSome_iff_exists.mp hg
    have hnames := foolingStep_map_name stOwner S board ps g
    have hRes' : ∀ h ∈ gs, (lookupPlayer (foolingStep stOwner S board ps g) h.1).isSome := by
      intro h hh
      rw [lookupPlayer_congr hnames]
      exact hRes h (List.mem_cons_of_mem _ hh)
    have hlen : i < (foolingStep stOwner S board ps g).length := by
      rw [foolingStep_length]; exact hi
    rw [List.foldl_cons, ih _ hRes' i hlen, List.countP_cons]
    have hstep : scoreAt (foolingStep stOwner S board ps g) i
        = scoreAt ps i +
          (if i = stOwner then 0
           else if (g.2 != (S : Int)) &&
              ((pyGet board g.2).map Submission.owner == some i) then 1 else 0) := by
      unfold foolingStep
      rw [hj]
      by_cases hS : g.2 = (S : Int)
      · simp [hS]
      · rcases hpg : pyGet board g.2 with - | sub
        · simp [hS, hpg]
        · by_cases ho : sub.owner = stOwner
          · subst ho
            by_cases hij : i = sub.owner
            · simp [hS, hij]
            · simp [hS, hpg, hij, Ne.symm hij]
          · have h1 : (if g.2 ≠ (S : Int) then
                (if sub.owner ≠ stOwner then bumpScore ps sub.owner 1 else ps) else ps)
                = bumpScore ps sub.owner 1 := by rw [if_pos hS, if_pos ho]
            by_cases hij : i = sub.owner
            · subst hij
              rw [h1, scoreAt_bumpScore_self ps 1 hi, if_neg ho]
              simp [hS]
            · have hji : sub.owner ≠ i := fun h => hij h.symm
              rw [h1, scoreAt_bumpScore_ne ps 1 hij]
              rcases eq_or_ne i stOwner with rfl | hist
              · simp
              · simp [hS, hji, hist]
    rw [hstep]
    rcases eq_or_ne i stOwner with rfl | hist
    · simp
    · simp only [if_neg hist]
      ring

/-- C2: in every scored round (whichever bucket applied), the fooling loop
of `_update_scores` adds to each non-storyteller owner exactly one point
per wrong guess landing on an entry they own — so k wrong guesses on the
same entry add +k — and never changes the storyteller's score; and in the
concrete §8 scenario (storyteller A's card at board position 1, guesses
2, 1, 1) the total deltas of `_update_scores` are A +3, B +0, C +4, D +3. -/
theorem spec_C2_fooling_bonus :
    (∀ (stOwner S : Nat) (board : List Submission) (ps : List Player)
        (gs : List (String × Int)),
      (∀ g ∈ gs, (lookupPlayer ps g.1).isSome) →
      ∀ i, i < ps.length →
        scoreAt (gs.foldl (foolingStep stOwner S board) ps) i
          = scoreAt ps i +
            (if i = stOwner then 0
             else gs.countP fun g =>
               (g.2 != (S : Int)) &&
                 ((pyGet board g.2).map Submission.owner == some i)))
    ∧ (update_scores [pA, pB, pC, pD] ⟨0, "x"⟩ demoBoard demoGuesses).map Player.score
        = [3, 0, 4, 3] :=
  ⟨fun stOwner S board ps gs hRes i hi =>
    scoreAt_foldl_fooling stOwner S board gs ps hRes i hi, by decide⟩

/-- Witness for C2: the general fooling-bonus formula applied to the §8
round, at C's index 2 (B's wrong guess 2 lands on C's entry: one matching
guess). The guesses of the round resolve against the roster. -/
theorem spec_C2_fooling_bonus_witness :
    (∀ g ∈ demoGuesses, (lookupPlayer [pA, pB, pC, pD] g.1).isSome) ∧
    scoreAt (demoGuesses.foldl (foolingStep 0 1 demoBoard) [pA, pB, pC, pD]) 2
      = scoreAt [pA, pB, pC, pD] 2 +
        (if 2 = 0 then 0
         else demoGuesses.countP fun g =>
           (g.2 != ((1 : Nat) : Int)) &&
             ((pyGet demoBoard g.2).map Submission.owner == some 2)) :=
  ⟨by decide, spec_C2_fooling_bonus.1 0 1 demoBoard [pA, pB, pC, pD] demoGuesses
    (by decide) 2 (by decide)⟩

theorem findStorytellerIdx_lt {board : List Submission} {c : Card} {S : Nat}
    (h : findStorytellerIdx board c = some S) : S < board.length := by
  induction board generalizing S with
  | nil => simp [findStorytellerIdx] at h
  | cons b bs ih =>
    by_cases hb : b.card = c
    · simp [findStorytellerIdx, hb] at h
      simp [← h]
    · simp only [findStorytellerIdx, beq_iff_eq, hb, if_false, Option.map_eq_some'] at h
      obtain ⟨S', hS', rfl⟩ := h
      have := ih hS'
      simp
      omega

theorem pyGet_eq_none {l : List α} {i : Int}
    (h : (l.length : Int) ≤ i ∨ i < -(l.length : Int)) : pyGet l i = none := by
  unfold pyGet
  rcases h with h | h
  · rw [if_pos (by omega)]
    exact List.get?_eq_none.mpr (by omega)
  · rw [if_neg (by omega)]
    simp only
    rw [if_neg (by omega)]

/-- C10's counterexample: with storyteller A's card at board position 0 of
a 3-entry board, guesser B records the guess `-1`, which is outside the
board's position range `[0, 3)`. The claim predicts no fooling bonus, so
C's delta would be the bucket-A +2; the code wraps `-1` Python-style to
position 2 (C's entry) and awards C the bonus: C's total delta is +3, not
+2. -/
theorem spec_C10_counterexample :
    (¬ (0 ≤ (-1 : Int) ∧
        (-1 : Int) < (([⟨0, "x"⟩, ⟨1, "b"⟩, ⟨2, "c"⟩] : List Submission).length : Int))) ∧
    (update_scores [pA, pB, pC] ⟨0, "x"⟩ [⟨0, "x"⟩, ⟨1, "b"⟩, ⟨2, "c"⟩]
        [("B", -1)]).map Player.score = [0, 2, 3] ∧
    ([0, 2, 3] : List Nat) ≠ [0, 2, 2] := by
  refine ⟨by decide, by decide, by decide⟩

/-- C10 amended: scoring is total in the recorded guess values, but the
harmless region is Python's index range, not the board's: a wrong guess
`g` with `g ≥ n` or `g < -n` (n = board length) raises the caught
`IndexError`, awards nothing, and leaves the bucket deltas and every other
guess's fooling bonus intact — removing it from the guess dict does not
change the result — while a negative guess in `[-n, -1]` wraps around and
does award a bonus (see the counterexample). -/
theorem spec_C10_amended (players : List Player) (stSub : Submission)
    (board : List Submission) (gs1 gs2 : List (String × Int)) (n : String) (g : Int)
    (hout : (board.length : Int) ≤ g ∨ g < -(board.length : Int)) :
    update_scores players stSub board (gs1 ++ (n, g) :: gs2)
      = update_scores players stSub board (gs1 ++ gs2) := by
  unfold update_scores
  rcases hfind : findStorytellerIdx board stSub.card with - | S
  · rfl
  · have hS : S < board.length := findStorytellerIdx_lt hfind
    by_cases hlen : players.length ≤ 1
    · simp [hlen]
    · simp only [hlen, if_false]
      have hgS : g ≠ (S : Int) := by omega
      have hcg : correctGuessers players S (gs1 ++ (n, g) :: gs2)
          = correctGuessers players S (gs1 ++ gs2) := by
        unfold correctGuessers
        rw [List.filterMap_append, List.filterMap_append, List.filterMap_cons]
        rcases lookupPlayer players n with - | j
        · rfl
        · simp [hgS]
      have hstep : ∀ ps, foolingStep stSub.owner S board ps (n, g) = ps := by
        intro ps
        unfold foolingStep
        rcases lookupPlayer ps n with - | j
        · rfl
        · simp only [hgS, ne_eq, not_false_iff, if_true, pyGet_eq_none hout]
      rw [hcg, List.foldl_append, List.foldl_append, List.foldl_cons, hstep]

/-- Witness for C10 amended: a guess of 5 on the 3-entry §8-style board is
out of Python range and dropping it changes nothing. -/
theorem spec_C10_amended_witness :
    ((([⟨0, "x"⟩, ⟨1, "b"⟩, ⟨2, "c"⟩] : List Submission).length : Int) ≤ 5 ∨
      (5 : Int) < -(([⟨0, "x"⟩, ⟨1, "b"⟩, ⟨2, "c"⟩] : List Submission).length : Int)) ∧
    update_scores [pA, pB, pC] ⟨0, "x"⟩ [⟨0, "x"⟩, ⟨1, "b"⟩, ⟨2, "c"⟩]
        ([("C", 1)] ++ ("B", 5) :: [])
      = update_scores [pA, pB, pC] ⟨0, "x"⟩ [⟨0, "x"⟩, ⟨1, "b"⟩, ⟨2, "c"⟩]
        ([("C", 1)] ++ []) :=
  ⟨by decide, spec_C10_amended [pA, pB, pC] ⟨0, "x"⟩ [⟨0, "x"⟩, ⟨1, "b"⟩, ⟨2, "c"⟩]
    [("C", 1)] [] "B" 5 (by decide)⟩

theorem findStorytellerIdx_isSome_of_mem {board : List Submission} {c : Card}
    (h : c ∈ board.map Submission.card) : (findStorytellerIdx board c).isSome := by
  induction board with
  | nil => simp at h
  | cons b bs ih =>
    by_cases hb : b.card = c
    · simp [findStorytellerIdx, hb]
    · simp only [List.map_cons, List.mem_cons] at h
      rcases h with h | h
      · exact absurd h.symm hb
      · have := ih h
        simp only [findStorytellerIdx, beq_iff_eq, hb, if_false]
        simpa using this

/-- C5's counterexample: `_update_scores` invoked with a storyteller card
that is absent from the board returns normally (the embedding of the
`print` + `return` branch is the identity on the players), with every
score unchanged — there is no propagated failure, contradicting the claim
that scoring "never returns normally". -/
theorem spec_C5_counterexample :
    findStorytellerIdx demoBoard "zzz" = none ∧
    update_scores [pA, pB, pC, pD] ⟨0, "zzz"⟩ demoBoard demoGuesses
      = [pA, pB, pC, pD] := by
  refine ⟨by decide, by decide⟩

/-- C5 amended: when the storyteller's card is absent from the board,
`_update_scores` logs and returns normally with all scores unchanged
(defensive early return, not a propagated failure); and the branch is
indeed unreachable from the orchestrator, since `play_turn` builds the
board as a shuffle (permutation) of the storyteller's submission and the
others, so the lookup always succeeds. -/
theorem spec_C5_amended :
    (∀ (players : List Player) (stSub : Submission) (board : List Submission)
        (guesses : List (String × Int)),
      findStorytellerIdx board stSub.card = none →
      update_scores players stSub board guesses = players)
    ∧ (∀ (stSub : Submission) (subs board : List Submission),
      board.Perm (stSub :: subs) → (findStorytellerIdx board stSub.card).isSome) := by
  constructor
  · intro players stSub board guesses hnone
    unfold update_scores
    rw [hnone]
  · intro stSub subs board hperm
    refine findStorytellerIdx_isSome_of_mem ?_
    have : stSub.card ∈ (stSub :: subs).map Submission.card := by simp
    exact (hperm.map Submission.card).mem_iff.mpr this

/-- Witness for C5 amended: a concrete absent card yields the identity,
and a concrete shuffled board containing the storyteller's submission
resolves. -/
theorem spec_C5_amended_witness :
    update_scores [pA, pB] ⟨0, "zzz"⟩ demoBoard [] = [pA, pB] ∧
    (findStorytellerIdx ([⟨1, "b"⟩, ⟨0, "x"⟩] : List Submission)
      (Submission.card ⟨0, "x"⟩)).isSome = true :=
  ⟨spec_C5_amended.1 [pA, pB] ⟨0, "zzz"⟩ demoBoard [] (by decide),
   spec_C5_amended.2 ⟨0, "x"⟩ [⟨1, "b"⟩] [⟨1, "b"⟩, ⟨0, "x"⟩] (by decide)⟩

theorem drawLoopFuel_nil_deck (hs fuel : Nat) (hand : List Card) :
    drawLoopFuel hs fuel hand [] = (hand, []) := by
  cases fuel with
  | zero => rfl
  | succ fuel => simp [drawLoopFuel]

theorem drawLoop_nil_deck (hs : Nat) (hand : List Card) :
    drawLoop hs hand [] = (hand, []) :=
  drawLoopFuel_nil_deck hs _ hand

theorem drawLoopFuel_short_deck_empty (hs : Nat) :
    ∀ (fuel : Nat) (hand deck : List Card), hs ≤ hand.length + fuel →
      (drawLoopFuel hs fuel hand deck).1.length < hs →
      (drawLoopFuel hs fuel hand deck).2 = [] := by
  intro fuel
  induction fuel with
  | zero =>
    intro hand deck hfuel hshort
    simp only [drawLoopFuel] at hshort
    omega
  | succ fuel ih =>
    intro hand deck hfuel hshort
    by_cases hcond : hand.length < hs ∧ deck ≠ []
    · rw [drawLoopFuel, if_pos hcond] at hshort ⊢
      exact ih _ _ (by simp; omega) hshort
    · rw [drawLoopFuel, if_neg hcond] at hshort ⊢
      push_neg at hcond
      exact hcond hshort

theorem drawLoop_short_deck_empty (hs : Nat) (hand deck : List Card)
    (hshort : (drawLoop hs hand deck).1.length < hs) :
    (drawLoop hs hand deck).2 = [] := by
  by_cases hle : hand.length ≤ hs
  · exact drawLoopFuel_short_deck_empty hs _ hand deck (by omega) hshort
  · unfold drawLoop at hshort ⊢
    have : hs - hand.length = 0 := by omega
    rw [this] at hshort ⊢
    simp only [drawLoopFuel] at hshort
    omega

theorem replenishPlayers_nil_deck (hs : Nat) (players : List Player) :
    replenishPlayers hs players [] = (players, []) := by
  induction players with
  | nil => rfl
  | cons p ps ih => simp [replenishPlayers, drawLoop_nil_deck, ih]

theorem replenishPlayers_short_deck_empty (hs : Nat) :
    ∀ (players : List Player) (deck : List Card) (p : Player),
      p ∈ (replenishPlayers hs players deck).1 → p.hand.length < hs →
      (replenishPlayers hs players deck).2 = [] := by
  intro players
  induction players with
  | nil => intro deck p hp; simp [replenishPlayers] at hp
  | cons q qs ih =>
    intro deck p hp hshort
    simp only [replenishPlayers, List.mem_cons] at hp ⊢
    rcases hp with hp | hp
    · have hq : (drawLoop hs q.hand deck).1.length < hs := by
        rw [hp] at hshort
        simpa using hshort
      have hdeck := drawLoop_short_deck_empty hs q.hand deck hq
      rw [hdeck, replenishPlayers_nil_deck]
    · exact ih _ p hp hshort

theorem replenishPlayers_full (hs : Nat) :
    ∀ (players : List Player) (deck : List Card),
      (∀ p ∈ players, ¬ (p.hand.length < hs)) →
      replenishPlayers hs players deck = (players, deck) := by
  intro players
  induction players with
  | nil => intro deck hfull; rfl
  | cons q qs ih =>
    intro deck hfull
    have hq : ¬ (q.hand.length < hs) := hfull q (List.mem_cons_self q qs)
    have hdraw : drawLoop hs q.hand deck = (q.hand, deck) := by
      unfold drawLoop
      have : hs - q.hand.length = 0 := by omega
      rw [this]
      rfl
    simp only [replenishPlayers, hdraw]
    rw [ih deck fun p hp => hfull p (List.mem_cons_of_mem _ hp)]

/-- C3's counterexample: hand size 2, one player with an empty hand, a
draw pile of one card and a discard pile of two. The deck is nonempty on
entry, so no recycling happens; it empties mid-draw, and replenishment
ends with the hand below target while the discard pile is still nonempty —
contradicting "after replenishment a hand is below target only if both the
draw pile and the discard pile are empty". -/
theorem spec_C3_counterexample :
    ((replenish_hands 2 id
        [{ name := "P", score := 0, hand := [], is_ai := false }] ["c"] ["d", "e"]).1.any
      fun p => p.hand.length < 2) = true ∧
    (replenish_hands 2 id
        [{ name := "P", score := 0, hand := [], is_ai := false }] ["c"] ["d", "e"]).2.2
      = ["d", "e"] ∧
    (["d", "e"] : List Card) ≠ [] := by
  refine ⟨by decide, by decide, by decide⟩

/-- C3 amended: `_replenish_hands` recycles the discard pile only when the
draw pile is empty on entry (in which case the entire discard pile moves
into the deck); if the deck empties mid-draw no recycling happens during
this call, so a hand can remain short with a nonempty discard pile. What
does hold after replenishment: any hand still below target implies the
draw pile ended empty. -/
theorem spec_C3_amended (hs : Nat) (sh : List Card → List Card)
    (players : List Player) (deck discard : List Card) :
    (deck = [] → discard ≠ [] →
      (replenish_hands hs sh players deck discard).2.2 = [])
    ∧ (∀ p ∈ (replenish_hands hs sh players deck discard).1,
        p.hand.length < hs → (replenish_hands hs sh players deck discard).2.1 = []) := by
  constructor
  · intro hdeck hdisc
    unfold replenish_hands
    rw [if_pos hdeck, if_neg hdisc]
  · intro p hp hshort
    unfold replenish_hands at hp ⊢
    by_cases hdeck : deck = []
    · by_cases hdisc : discard = []
      · rw [if_pos hdeck, if_pos hdisc] at hp ⊢
        subst hdeck
        rfl
      · rw [if_pos hdeck, if_neg hdisc] at hp ⊢
        exact replenishPlayers_short_deck_empty hs players _ p hp hshort
    · rw [if_neg hdeck] at hp ⊢
      exact replenishPlayers_short_deck_empty hs players _ p hp hshort

/-- Witness for C3 amended: on the counterexample state (deck `["c"]`,
discard `["d","e"]`, hand size 2) the player ends short and indeed the
draw pile ended empty; and on an empty deck with nonempty discard the
whole discard pile is recycled. -/
theorem spec_C3_amended_witness :
    ({ name := "P", score := 0, hand := ["c"], is_ai := false } : Player)
        ∈ (replenish_hands 2 id
            [{ name := "P", score := 0, hand := [], is_ai := false }] ["c"] ["d", "e"]).1 ∧
    (replenish_hands 2 id
        [{ name := "P", score := 0, hand := [], is_ai := false }] ["c"] ["d", "e"]).2.1 = [] ∧
    (replenish_hands 2 id
        [{ name := "Q", score := 0, hand := ["a", "b"], is_ai := false }] [] ["d"]).2.2 = [] :=
  ⟨by decide,
   (spec_C3_amended 2 id [{ name := "P", score := 0, hand := [], is_ai := false }]
      ["c"] ["d", "e"]).2
     { name := "P", score := 0, hand := ["c"], is_ai := false } (by decide) (by decide),
   (spec_C3_amended 2 id [{ name := "Q", score := 0, hand := ["a", "b"], is_ai := false }]
      [] ["d"]).1 (by decide) (by decide)⟩

/-- C8's counterexample: one player whose hand is at the target size, an
empty draw pile, and a one-card discard pile. Replenish recycles the
discard pile into the deck even though nothing is drawn: the draw pile
grows from 0 to 1 and the discard pile shrinks from 1 to 0, so pile sizes
are not left unchanged. -/
theorem spec_C8_counterexample :
    (∀ p ∈ ([{ name := "P", score := 0, hand := ["a"], is_ai := false }] : List Player),
      ¬ (p.hand.length < 1)) ∧
    (replenish_hands 1 id
        [{ name := "P", score := 0, hand := ["a"], is_ai := false }] [] ["c"]).2.1.length = 1 ∧
    (replenish_hands 1 id
        [{ name := "P", score := 0, hand := ["a"], is_ai := false }] [] ["c"]).2.2.length = 0 ∧
    (1 : Nat) ≠ 0 := by
  refine ⟨by decide, by decide, by decide, by decide⟩

/-- C8 amended: replenish is a no-op (piles and players untouched) when
every hand is at the target size, provided the draw pile is nonempty or
the discard pile is empty; when the draw pile is empty and the discard
pile nonempty, the whole (shuffled) discard pile is moved into the draw
pile even though no cards are drawn. -/
theorem spec_C8_amended (hs : Nat) (sh : List Card → List Card)
    (players : List Player) (deck discard : List Card)
    (hfull : ∀ p ∈ players, ¬ (p.hand.length < hs)) :
    (deck ≠ [] ∨ discard = [] →
      replenish_hands hs sh players deck discard = (players, deck, discard))
    ∧ (deck = [] → discard ≠ [] →
      replenish_hands hs sh players deck discard = (players, sh (deck ++ discard), [])) := by
  constructor
  · intro h
    unfold replenish_hands
    rcases h with h | h
    · rw [if_neg h, replenishPlayers_full hs players deck hfull]
    · by_cases hdeck : deck = []
      · rw [if_pos hdeck, if_pos h]
      · rw [if_neg hdeck, replenishPlayers_full hs players deck hfull]
  · intro hdeck hdisc
    unfold replenish_hands
    rw [if_pos hdeck, if_neg hdisc]
    simp only [replenishPlayers_full hs players (sh (deck ++ discard)) hfull]

/-- Witness for C8 amended: a full hand with a nonempty deck is untouched;
a full hand with an empty deck and nonempty discard gets the recycled
deck. -/
theorem spec_C8_amended_witness :
    replenish_hands 1 id [{ name := "P", score := 0, hand := ["a"], is_ai := false }]
        ["d"] ["e"]
      = ([{ name := "P", score := 0, hand := ["a"], is_ai := false }], ["d"], ["e"]) ∧
    replenish_hands 1 id [{ name := "P", score := 0, hand := ["a"], is_ai := false }]
        [] ["e"]
      = ([{ name := "P", score := 0, hand := ["a"], is_ai := false }], id ([] ++ ["e"]), []) :=
  ⟨(spec_C8_amended 1 id [{ name := "P", score := 0, hand := ["a"], is_ai := false }]
      ["d"] ["e"] (by decide)).1 (Or.inl (by decide)),
   (spec_C8_amended 1 id [{ name := "P", score := 0, hand := ["a"], is_ai := false }]
      [] ["e"] (by decide)).2 (by decide) (by decide)⟩

/-- C9's counterexample: constructing a game with an empty roster and a
one-card pool succeeds — `Game.__init__` never checks the roster (the pool
check `len(deck) < 0 * hand_size` is vacuous), so a game state is
produced, contradicting "fails with a configuration error and produces no
game state". -/
theorem spec_C9_counterexample :
    (gameInit [] 6 30 ["c"] none).isSome = true ∧
    gameInit [] 6 30 ["c"] none
      = some { players := [], deck := ["c"], discard_pile := [], board := [],
               storyteller_index := 0, hand_size := 6, max_score := 30,
               current_clue := "" } := by
  refine ⟨by decide, by decide⟩

/-- C9 amended: construction raises `ValueError` (produces no game state)
exactly when the loaded pool is empty or smaller than `players × hand_size`
and the dummy-card fallback fails or leaves the reloaded pool empty or
still too small. An empty roster is never itself checked: with any
nonempty pool it makes both size checks vacuous, and construction
succeeds. -/
theorem spec_C9_amended (player_names : List String) (hand_size max_score : Nat)
    (deck0 : List Card) (dummyReload : Option (List Card)) :
    gameInit player_names hand_size max_score deck0 dummyReload = none ↔
      ((deck0 = [] ∨ deck0.length < player_names.length * hand_size) ∧
        ∀ deck1, dummyReload = some deck1 →
          deck1 = [] ∨ deck1.length < player_names.length * hand_size) := by
  simp only [gameInit, List.length_map]
  by_cases h0 : deck0 = [] ∨ deck0.length < player_names.length * hand_size
  · rw [if_pos h0]
    cases dummyReload with
    | none => simp [h0]
    | some deck1 =>
      by_cases h1 : deck1 = [] ∨ deck1.length < player_names.length * hand_size
      · simp [h0, h1]
      · simp [h0, h1]
  · rw [if_neg h0]
    simp [h0]

theorem possibleIndices_spec (own : Option Card) :
    ∀ (fs : List Card) (i0 j : Nat), j ∈ possibleIndices own fs i0 →
      i0 ≤ j ∧ ∃ f, fs.get? (j - i0) = some f ∧ some f ≠ own := by
  intro fs
  induction fs with
  | nil => intro i0 j hj; simp [possibleIndices] at hj
  | cons f fs ih =>
    intro i0 j hj
    simp only [possibleIndices, List.mem_append] at hj
    rcases hj with hj | hj
    · by_cases hf : some f ≠ own
      · rw [if_pos hf] at hj
        simp only [List.mem_singleton] at hj
        subst hj
        exact ⟨Nat.le_refl _, f, by simp, hf⟩
      · rw [if_neg hf] at hj
        simp at hj
    · obtain ⟨h1, f', hf', hne⟩ := ih (i0 + 1) j hj
      refine ⟨by omega, f', ?_, hne⟩
      have : j - i0 = (j - (i0 + 1)) + 1 := by omega
      rw [this]
      simpa using hf'

theorem possibleIndices_ne_nil (own : Option Card) :
    ∀ (fs : List Card) (i0 : Nat) (f : Card), f ∈ fs → some f ≠ own →
      possibleIndices own fs i0 ≠ [] := by
  intro fs
  induction fs with
  | nil => intro i0 f hf; simp at hf
  | cons f' fs ih =>
    intro i0 f hf hne
    simp only [List.mem_cons] at hf
    simp only [possibleIndices]
    rcases hf with rfl | hf
    · rw [if_pos hne]
      simp
    · intro hcontra
      rcases List.append_eq_nil.mp hcontra with ⟨-, h2⟩
      exact ih (i0 + 1) f hf hne h2

theorem getD_get?_mem {l : List Nat} (r d : Nat) (h : l ≠ []) :
    (l.get? (r % l.length)).getD d ∈ l := by
  have hlen : 0 < l.length := List.length_pos.mpr h
  have hlt : r % l.length < l.length := Nat.mod_lt _ hlen
  rcases hg : l.get? (r % l.length) with - | x
  · exact absurd (List.get?_eq_none.mp hg) (by omega)
  · simpa using List.get?_mem hg


theorem fallbackPick_ne {displayed : List Card} {c : Card} (r : Nat) {pos : Nat}
    (hposs : possibleIndices (some c) displayed 0 ≠ [])
    (hpos : displayed.get? pos = some c) :
    fallbackPick displayed (some c) r ≠ pos := by
  unfold fallbackPick
  rw [if_neg hposs]
  intro hcontra
  have hmem := getD_get?_mem r 0 hposs
  rw [hcontra] at hmem
  obtain ⟨-, f, hf, hfne⟩ := possibleIndices_spec (some c) displayed 0 pos hmem
  simp only [Nat.sub_zero] at hf
  rw [hpos] at hf
  cases hf
  exact hfne rfl

theorem guess_card_ne_own_pos (p_is_ai : Bool) (displayed : List Card) (c : Card)
    (raw : Int) (r : Nat) (humanInputs : List Int) (g : Nat)
    (hother : ∃ d ∈ displayed, d ≠ c)
    (hrun : guess_card p_is_ai displayed (some c) raw r humanInputs = some g) :
    ∀ pos, displayed.get? pos = some c → g ≠ pos := by
  obtain ⟨d, hd, hdc⟩ := hother
  have hne : some d ≠ (some c : Option Card) := by simpa using hdc
  have hposs : possibleIndices (some c) displayed 0 ≠ [] :=
    possibleIndices_ne_nil (some c) displayed 0 d hd hne
  intro pos hpos
  unfold guess_card at hrun
  cases p_is_ai with
  | true =>
    simp only [if_true, Option.some_inj] at hrun
    subst hrun
    unfold guess_card_ai
    by_cases hrange : 0 ≤ raw ∧ raw < (displayed.length : Int)
    · rw [if_neg (not_not_intro hrange)]
      by_cases hown : some ((displayed.get? raw.toNat).getD "") = (some c : Option Card)
      · rw [if_pos hown]
        exact fallbackPick_ne r hposs hpos
      · rw [if_neg hown]
        intro hcontra
        exact hown (by rw [hcontra, hpos]; rfl)
    · rw [if_pos hrange]
      exact fallbackPick_ne r hposs hpos
  | false =>
    simp only [if_false, Bool.false_eq_true] at hrun
    unfold guess_card_human at hrun
    rcases Option.map_eq_some'.mp hrun with ⟨a, hfind, hga⟩
    have hpred := List.find?_some hfind
    simp only [Bool.and_eq_true, decide_eq_true_eq, Bool.not_eq_eq_eq_not,
      Bool.not_true, decide_eq_false_iff_not] at hpred
    obtain ⟨⟨-, -⟩, hnotown⟩ := hpred
    intro hcontra
    apply hnotown
    rw [hga, hcontra, hpos]
    rfl

/-- C7: a recorded guess never lands on the board position of the
guesser's own submission. `guess_card` invoked for a guesser who submitted
card `c` (so `own = some c`), on a board holding at least one card other
than `c`, returns an index whose card differs from `c`; hence it differs
from every position where `c` sits. This covers both the automated branch
(an out-of-range or own-card answer is replaced by a pick among the
indices of other cards) and the human branch (the input loop only accepts
an in-range index whose card is not the guesser's own). -/
theorem spec_C7_no_self_guess (p_is_ai : Bool) (displayed : List Card) (c : Card)
    (raw : Int) (r : Nat) (humanInputs : List Int) (g : Nat)
    (hother : ∃ d ∈ displayed, d ≠ c)
    (hrun : guess_card p_is_ai displayed (some c) raw r humanInputs = some g) :
    ∀ pos, displayed.get? pos = some c → g ≠ pos :=
  guess_card_ne_own_pos p_is_ai displayed c raw r humanInputs g hother hrun

/-- Witness for C7: guesser who submitted "b" (at board position 1 of
`["x", "b"]`) whose AI raw answer 1 names its own card; the fallback picks
index 0, which differs from position 1. -/
theorem spec_C7_no_self_guess_witness :
    ((∃ d ∈ (["x", "b"] : List Card), d ≠ "b") ∧
      guess_card true ["x", "b"] (some "b") 1 0 [] = some 0 ∧
      (["x", "b"] : List Card).get? 1 = some "b") ∧
    (0 : Nat) ≠ 1 :=
  ⟨⟨⟨"x", by decide, by decide⟩, by decide, by decide⟩,
   spec_C7_no_self_guess true ["x", "b"] "b" 1 0 [] 0 ⟨"x", by decide, by decide⟩
     (by decide) 1 (by decide)⟩

theorem dictInsert_fresh {d : List (String × Int)} {k : String} (v : Int)
    (hfresh : ∀ e ∈ d, e.1 ≠ k) : dictInsert d k v = d ++ [(k, v)] := by
  unfold dictInsert
  rw [if_neg]
  simp only [List.any_eq_true, not_exists, not_and, Bool.not_eq_true]
  intro e he
  simpa using hfresh e he

theorem collectGuesses_mem_rec (st : Nat) (subs : List Submission)
    (displayed : List Card) (o : Oracle) :
    ∀ (players : List Player) (i0 : Nat) (acc gs : List (String × Int)),
      (players.map Player.name).Nodup →
      (∀ p ∈ players, ∀ e ∈ acc, e.1 ≠ p.name) →
      collectGuesses st subs displayed o players i0 acc = some gs →
      ∀ e ∈ gs, e ∈ acc ∨ ∃ k p gNat, players.get? k = some p ∧ i0 + k ≠ st ∧
        e.1 = p.name ∧
        guess_card p.is_ai displayed (ownSubmissionCard subs (i0 + k))
          (o.guessRaw (i0 + k)) (o.guessFallback (i0 + k)) (o.guessHuman (i0 + k))
          = some gNat ∧
        e.2 = (gNat : Int) := by
  intro players
  induction players with
  | nil =>
    intro i0 acc gs hnd hfresh hrun e he
    simp only [collectGuesses, Option.some_inj] at hrun
    subst hrun
    exact Or.inl he
  | cons p ps ih =>
    intro i0 acc gs hnd hfresh hrun e he
    have hndTail : (ps.map Player.name).Nodup := by
      simpa using hnd.of_cons
    by_cases hst : i0 = st
    · rw [collectGuesses, if_pos hst] at hrun
      have hfreshTail : ∀ q ∈ ps, ∀ e ∈ acc, e.1 ≠ q.name :=
        fun q hq => hfresh q (List.mem_cons_of_mem _ hq)
      rcases ih (i0 + 1) acc gs hndTail hfreshTail hrun e he with hacc | ⟨k, q, gN, hget, hkst, h1, h2, h3⟩
      · exact Or.inl hacc
      · refine Or.inr ⟨k + 1, q, gN, by simpa using hget, by omega, h1, ?_, h3⟩
        have heq : i0 + (k + 1) = i0 + 1 + k := by omega
        rw [heq]
        exact h2
    · rw [collectGuesses, if_neg hst] at hrun
      rcases hguess : guess_card p.is_ai displayed (ownSubmissionCard subs i0)
          (o.guessRaw i0) (o.guessFallback i0) (o.guessHuman i0) with - | g
      · simp [hguess] at hrun
      · simp only [hguess] at hrun
        have hfreshp : ∀ e ∈ acc, e.1 ≠ p.name := hfresh p (List.mem_cons_self p ps)
        rw [dictInsert_fresh (g : Int) hfreshp] at hrun
        have hpNotTail : p.name ∉ ps.map Player.name := by
          have hnd' := hnd
          simp only [List.map_cons, List.nodup_cons] at hnd'
          exact hnd'.1
        have hfreshTail : ∀ q ∈ ps, ∀ e ∈ acc ++ [(p.name, (g : Int))], e.1 ≠ q.name := by
          intro q hq e heMem
          rcases List.mem_append.mp heMem with h | h
          · exact hfresh q (List.mem_cons_of_mem _ hq) e h
          · simp only [List.mem_singleton] at h
            subst h
            intro hcontra
            exact hpNotTail (by
              simp only [List.mem_map]
              exact ⟨q, hq, hcontra.symm⟩)
        rcases ih (i0 + 1) _ gs hndTail hfreshTail hrun e he with hacc | ⟨k, q, gN, hget, hkst, h1, h2, h3⟩
        · rcases List.mem_append.mp hacc with h | h
          · exact Or.inl h
          · simp only [List.mem_singleton] at h
            subst h
            refine Or.inr ⟨0, p, g, by simp, by simpa using hst, rfl, by simpa using hguess, rfl⟩
        · refine Or.inr ⟨k + 1, q, gN, by simpa using hget, ?_, h1, ?_, h3⟩
          · omega
          · have : i0 + (k + 1) = i0 + 1 + k := by omega
            rw [this]
            exact h2

/-- C4's counterexample: in the concrete `c4Board` round, guesser B
(roster index 1) submitted card `b`, and the list supplied to B's guess
decision — which by definition of `collectGuesses` is the full
`displayedFilenames` of the shuffled board — contains `b`. The recorded
guesses are `guess_card`'s raw return values (B's answer 0 named its own
card and was re-drawn to 1 inside `guess_card`, not remapped by the core),
refuting "the guesser only ever sees and answers in a compacted list". -/
theorem spec_C4_counterexample :
    ownSubmissionCard c4Subs 1 = some "b" ∧
    "b" ∈ displayedFilenames c4Board ∧
    collectGuesses 0 c4Subs (displayedFilenames c4Board) oDemo [qA, qB, qC] 0 []
      = some [("B", 1), ("C", 0)] := by
  refine ⟨by decide, by decide, by decide⟩

/-- C4 amended: the guess phase supplies every guesser's decision with the
full displayed board — including the guesser's own submission — and
records the returned index unchanged (no compaction, no position-map
remapping): every recorded entry equals the name and the direct
`guess_card` return value of a unique non-storyteller player. Self-guess
protection lives inside `guess_card` instead: whenever the guesser's own
submission exists and some other card is on the board, the recorded index
differs from every position holding the guesser's own card. -/
theorem spec_C4_amended (st : Nat) (subs : List Submission) (board : List Submission)
    (o : Oracle) (players : List Player) (gs : List (String × Int))
    (hNames : (players.map Player.name).Nodup)
    (hrun : collectGuesses st subs (displayedFilenames board) o players 0 [] = some gs) :
    ∀ e ∈ gs, ∃ k p gNat, players.get? k = some p ∧ k ≠ st ∧ e.1 = p.name ∧
      guess_card p.is_ai (displayedFilenames board) (ownSubmissionCard subs k)
        (o.guessRaw k) (o.guessFallback k) (o.guessHuman k) = some gNat ∧
      e.2 = (gNat : Int) ∧
      ∀ c, ownSubmissionCard subs k = some c →
        (∃ d ∈ displayedFilenames board, d ≠ c) →
        ∀ pos, (displayedFilenames board).get? pos = some c → gNat ≠ pos := by
  intro e he
  rcases collectGuesses_mem_rec st subs (displayedFilenames board) o players 0 [] gs
      hNames (by simp) hrun e he with hacc | ⟨k, p, gN, hget, hkst, h1, h2, h3⟩
  · simp at hacc
  · simp only [Nat.zero_add] at hkst h2
    refine ⟨k, p, gN, hget, hkst, h1, h2, h3, ?_⟩
    intro c hc hother pos hpos
    rw [hc] at h2
    exact guess_card_ne_own_pos p.is_ai (displayedFilenames board) c
      (o.guessRaw k) (o.guessFallback k) (o.guessHuman k) gN hother h2 pos hpos

/-- Witness for C4 amended: B's recorded entry `("B", 1)` of the
`c4Board` round is B's direct `guess_card` answer over the full board and
avoids B's own position 0. -/
theorem spec_C4_amended_witness :
    ((([qA, qB, qC].map Player.name).Nodup ∧
        collectGuesses 0 c4Subs (displayedFilenames c4Board) oDemo [qA, qB, qC] 0 []
          = some [("B", 1), ("C", 0)]) ∧
      (("B", (1 : Int)) ∈ ([("B", 1), ("C", 0)] : List (String × Int)))) ∧
    (∃ k p gNat, ([qA, qB, qC] : List Player).get? k = some p ∧ k ≠ 0 ∧
      ("B", (1 : Int)).1 = p.name ∧
      guess_card p.is_ai (displayedFilenames c4Board) (ownSubmissionCard c4Subs k)
        (oDemo.guessRaw k) (oDemo.guessFallback k) (oDemo.guessHuman k) = some gNat ∧
      ("B", (1 : Int)).2 = (gNat : Int) ∧
      ∀ c, ownSubmissionCard c4Subs k = some c →
        (∃ d ∈ displayedFilenames c4Board, d ≠ c) →
        ∀ pos, (displayedFilenames c4Board).get? pos = some c → gNat ≠ pos) :=
  ⟨⟨⟨by decide, by decide⟩, by decide⟩,
   spec_C4_amended 0 c4Subs c4Board oDemo [qA, qB, qC] [("B", 1), ("C", 0)]
     (by decide) (by decide) ("B", 1) (by decide)⟩

theorem cons_coe_eraseIdx {α : Type} {l : List α} {i : Nat} {x : α}
    (h : l.get? i = some x) :
    (x ::ₘ (l.eraseIdx i : Multiset α)) = (l : Multiset α) := by
  induction l generalizing i with
  | nil => simp at h
  | cons a l ih =>
    cases i with
    | zero =>
      simp only [List.get?_cons_zero, Option.some_inj] at h
      subst h
      simp [List.eraseIdx]
    | succ i =>
      simp only [List.get?_cons_succ] at h
      have hih := ih h
      show (x ::ₘ ↑(a :: l.eraseIdx i)) = _
      rw [← Multiset.cons_coe, ← Multiset.cons_coe, Multiset.cons_swap, hih]

theorem drawLoopFuel_conserve (hs : Nat) :
    ∀ (fuel : Nat) (hand deck : List Card),
      ((drawLoopFuel hs fuel hand deck).1 : Multiset Card)
          + ↑(drawLoopFuel hs fuel hand deck).2
        = (hand : Multiset Card) + ↑deck := by
  intro fuel
  induction fuel with
  | zero => intro hand deck; rfl
  | succ fuel ih =>
    intro hand deck
    by_cases hcond : hand.length < hs ∧ deck ≠ []
    · rw [drawLoopFuel, if_pos hcond, ih]
      have hlast : deck.getLast? = some (deck.getLast hcond.2) :=
        List.getLast?_eq_getLast deck hcond.2
      have happ : deck.dropLast ++ [deck.getLast?.getD ""] = deck := by
        rw [hlast]
        exact List.dropLast_append_getLast hcond.2
      conv_rhs => rw [← happ]
      rw [← Multiset.coe_add, ← Multiset.coe_add]
      abel
    · rw [drawLoopFuel, if_neg hcond]

theorem drawLoop_conserve (hs : Nat) (hand deck : List Card) :
    ((drawLoop hs hand deck).1 : Multiset Card) + ↑(drawLoop hs hand deck).2
      = (hand : Multiset Card) + ↑deck :=
  drawLoopFuel_conserve hs _ hand deck

theorem handsCards_cons (p : Player) (ps : List Player) :
    handsCards (p :: ps) = p.hand ++ handsCards ps := by
  simp [handsCards]

theorem replenishPlayers_conserve (hs : Nat) :
    ∀ (players : List Player) (deck : List Card),
      ((handsCards (replenishPlayers hs players deck).1 : List Card) : Multiset Card)
          + ↑(replenishPlayers hs players deck).2
        = (handsCards players : Multiset Card) + ↑deck := by
  intro players
  induction players with
  | nil => intro deck; rfl
  | cons p ps ih =>
    intro deck
    simp only [replenishPlayers, handsCards_cons]
    rw [← Multiset.coe_add, ← Multiset.coe_add]
    have hdraw := drawLoop_conserve hs p.hand deck
    have hrest := ih (drawLoop hs p.hand deck).2
    rw [add_assoc, hrest]
    have hsw : ((drawLoop hs p.hand deck).1 : Multiset Card)
        + (↑(handsCards ps) + ↑(drawLoop hs p.hand deck).2)
        = (↑(drawLoop hs p.hand deck).1 + ↑(drawLoop hs p.hand deck).2)
          + ↑(handsCards ps) := by abel
    rw [hsw, hdraw]
    abel

theorem replenish_hands_conserve (hs : Nat) (sh : List Card → List Card)
    (hsh : ∀ l, (sh l).Perm l) (players : List Player) (deck discard : List Card) :
    ((handsCards (replenish_hands hs sh players deck discard).1 : List Card) : Multiset Card)
        + ↑(replenish_hands hs sh players deck discard).2.1
        + ↑(replenish_hands hs sh players deck discard).2.2
      = (handsCards players : Multiset Card) + ↑deck + ↑discard := by
  unfold replenish_hands
  by_cases hdeck : deck = []
  · by_cases hdisc : discard = []
    · rw [if_pos hdeck, if_pos hdisc]
    · rw [if_pos hdeck, if_neg hdisc]
      show ((handsCards (replenishPlayers hs players (sh (deck ++ discard))).1 : List Card) : Multiset Card)
          + ↑(replenishPlayers hs players (sh (deck ++ discard))).2 + ↑([] : List Card)
        = (handsCards players : Multiset Card) + ↑deck + ↑discard
      have hrep := replenishPlayers_conserve hs players (sh (deck ++ discard))
      have hshm : ((sh (deck ++ discard) : List Card) : Multiset Card) = ↑deck + ↑discard := by
        rw [Multiset.coe_eq_coe.mpr (hsh (deck ++ discard)), ← Multiset.coe_add]
      rw [hshm] at hrep
      have hz : (↑([] : List Card) : Multiset Card) = 0 := rfl
      rw [hz, add_zero, hrep]
      abel
  · rw [if_neg hdeck]
    show ((handsCards (replenishPlayers hs players deck).1 : List Card) : Multiset Card)
        + ↑(replenishPlayers hs players deck).2 + ↑discard
      = (handsCards players : Multiset Card) + ↑deck + ↑discard
    rw [replenishPlayers_conserve hs players deck]

theorem pop_conserve {hand : List Card} {i : Nat} (hlt : i < hand.length) :
    (((hand.get? i).getD "") ::ₘ ((hand.eraseIdx i : List Card) : Multiset Card))
      = (hand : Multiset Card) := by
  rcases hg : hand.get? i with - | x
  · exact absurd (List.get?_eq_none.mp hg) (by omega)
  · simp only [hg, Option.getD_some]
    exact cons_coe_eraseIdx hg

theorem provide_clue_conserve {p : Player} {o : Oracle} {clue : String}
    {card : Card} {p' : Player}
    (h : provide_clue p o = some (some (clue, card, p'))) :
    (card ::ₘ (p'.hand : Multiset Card)) = (p.hand : Multiset Card) := by
  unfold provide_clue at h
  by_cases hh : p.hand = []
  · rw [if_pos hh] at h
    simp at h
  · rw [if_neg hh] at h
    have hlen : 0 < p.hand.length := List.length_pos.mpr hh
    by_cases hai : p.is_ai = true
    · rw [if_pos hai] at h
      simp only [Option.some_inj, Prod.mk.injEq] at h
      obtain ⟨-, hcard, hp'⟩ := h
      have hlt : o.stIdx % p.hand.length < p.hand.length := Nat.mod_lt _ hlen
      rcases hg : p.hand.get? (o.stIdx % p.hand.length) with - | x
      · exact absurd (List.get?_eq_none.mp hg) (by omega)
      · rw [hg] at hcard
        simp only [Option.getD_some] at hcard
        subst hcard
        rw [← hp']
        exact cons_coe_eraseIdx hg
    · rw [if_neg hai] at h
      rcases hfind : o.stHuman.find? (fun a =>
          (a.1 != "") && decide (0 ≤ a.2) && decide (a.2 < (p.hand.length : Int))) with - | a
      · rw [hfind] at h
        simp at h
      · rw [hfind] at h
        have hpred := List.find?_some hfind
        simp only [Bool.and_eq_true, decide_eq_true_eq] at hpred
        obtain ⟨⟨-, -⟩, hbound⟩ := hpred
        simp only [Option.some_inj, Prod.mk.injEq] at h
        obtain ⟨-, hcard, hp'⟩ := h
        have hlt : a.2.toNat < p.hand.length := by omega
        rcases hg : p.hand.get? a.2.toNat with - | x
        · exact absurd (List.get?_eq_none.mp hg) (by omega)
        · rw [hg] at hcard
          simp only [Option.getD_some] at hcard
          subst hcard
          rw [← hp']
          exact cons_coe_eraseIdx hg

theorem submit_card_conserve {p : Player} {raw : Option Int} {fallback : Nat}
    {inputs : List Int} {card : Card} {p' : Player}
    (h : submit_card p raw fallback inputs = some (some (card, p'))) :
    (card ::ₘ (p'.hand : Multiset Card)) = (p.hand : Multiset Card) := by
  unfold submit_card at h
  by_cases hh : p.hand = []
  · rw [if_pos hh] at h
    simp at h
  · rw [if_neg hh] at h
    have hlen : 0 < p.hand.length := List.length_pos.mpr hh
    by_cases hai : p.is_ai = true
    · rw [if_pos hai] at h
      simp only [Option.some_inj, Prod.mk.injEq] at h
      obtain ⟨hcard, hp'⟩ := h
      rw [← hp', ← hcard]
      refine pop_conserve ?_
      clear hcard hp'
      rcases raw with - | k
      · exact Nat.mod_lt _ hlen
      · dsimp only
        by_cases hk : 0 ≤ k ∧ k < ((p.hand.length : Nat) : Int)
        · rw [if_pos hk]
          omega
        · rw [if_neg hk]
          exact Nat.mod_lt _ hlen
    · rw [if_neg hai] at h
      rcases hfind : inputs.find? (fun k =>
          decide (0 ≤ k) && decide (k < (p.hand.length : Int))) with - | k
      · rw [hfind] at h
        simp at h
      · rw [hfind] at h
        have hpred := List.find?_some hfind
        simp only [Bool.and_eq_true, decide_eq_true_eq] at hpred
        obtain ⟨-, hbound⟩ := hpred
        have hlt : k.toNat < p.hand.length := by omega
        simp only [Option.some_inj, Prod.mk.injEq] at h
        obtain ⟨hcard, hp'⟩ := h
        rw [← hp', ← hcard]
        exact pop_conserve hlt

theorem doSubmissions_conserve (st : Nat) (o : Oracle) :
    ∀ (players : List Player) (i0 : Nat) (ps' : List Player) (subs : List Submission),
      doSubmissions st o players i0 = some (ps', subs) →
      ((handsCards ps' : List Card) : Multiset Card) + ↑(displayedFilenames subs)
        = ((handsCards players : List Card) : Multiset Card) := by
  intro players
  induction players with
  | nil =>
    intro i0 ps' subs h
    simp only [doSubmissions, Option.some_inj, Prod.mk.injEq] at h
    obtain ⟨h1, h2⟩ := h
    rw [← h1, ← h2]
    simp [handsCards, displayedFilenames]
  | cons p ps ih =>
    intro i0 ps' subs h
    rw [doSubmissions] at h
    by_cases hst : i0 = st
    · rw [if_pos hst] at h
      rcases hrec : doSubmissions st o ps (i0 + 1) with - | r
      · rw [hrec] at h
        simp at h
      · rw [hrec] at h
        simp only [Option.some_inj, Prod.mk.injEq] at h
        obtain ⟨h1, h2⟩ := h
        rw [← h1, ← h2, handsCards_cons, handsCards_cons, ← Multiset.coe_add,
          ← Multiset.coe_add, add_assoc, ih (i0 + 1) r.1 r.2 (by rw [hrec])]
    · rw [if_neg hst] at h
      rcases hsub : submit_card p (o.subRaw i0) (o.subFallback i0) (o.subHuman i0)
          with - | oc
      · rw [hsub] at h
        simp at h
      · rw [hsub] at h
        rcases oc with - | ⟨c, p'⟩
        · rcases hrec : doSubmissions st o ps (i0 + 1) with - | r
          · rw [hrec] at h
            simp at h
          · rw [hrec] at h
            simp only [Option.some_inj, Prod.mk.injEq] at h
            obtain ⟨h1, h2⟩ := h
            rw [← h1, ← h2, handsCards_cons, handsCards_cons, ← Multiset.coe_add,
              ← Multiset.coe_add, add_assoc, ih (i0 + 1) r.1 r.2 (by rw [hrec])]
        · rcases hrec : doSubmissions st o ps (i0 + 1) with - | r
          · rw [hrec] at h
            simp at h
          · rw [hrec] at h
            simp only [Option.some_inj, Prod.mk.injEq] at h
            obtain ⟨h1, h2⟩ := h
            have hsubC := submit_card_conserve hsub
            rw [← Multiset.singleton_add] at hsubC
            have hrecC := ih (i0 + 1) r.1 r.2 (by rw [hrec])
            rw [← h1, ← h2, handsCards_cons]
            show ((p'.hand ++ handsCards r.1 : List Card) : Multiset Card)
                + ↑(displayedFilenames (⟨i0, c⟩ :: r.2))
              = ((p.hand ++ handsCards ps : List Card) : Multiset Card)
            have hdisp : ((displayedFilenames (⟨i0, c⟩ :: r.2) : List Card) : Multiset Card)
                = ({c} : Multiset Card) + ↑(displayedFilenames r.2) := by
              simp [displayedFilenames]
            rw [hdisp, ← Multiset.coe_add, ← Multiset.coe_add]
            calc ((p'.hand : Multiset Card) + ↑(handsCards r.1))
                  + (({c} : Multiset Card) + ↑(displayedFilenames r.2))
                = (({c} : Multiset Card) + ↑p'.hand)
                  + ((handsCards r.1 : Multiset Card) + ↑(displayedFilenames r.2)) := by
                  abel
              _ = (p.hand : Multiset Card) + ↑(handsCards ps) := by rw [hsubC, hrecC]

theorem set_conserve :
    ∀ (players : List Player) (i : Nat) (stp p' : Player),
      players.get? i = some stp →
      ((handsCards (players.set i p') : List Card) : Multiset Card) + ↑stp.hand
        = ((handsCards players : List Card) : Multiset Card) + ↑p'.hand := by
  intro players
  induction players with
  | nil => intro i stp p' h; simp at h
  | cons q qs ih =>
    intro i stp p' h
    cases i with
    | zero =>
      simp only [List.get?_cons_zero, Option.some_inj] at h
      subst h
      simp only [List.set_cons_zero, handsCards_cons]
      rw [← Multiset.coe_add, ← Multiset.coe_add]
      abel
    | succ i =>
      simp only [List.get?_cons_succ] at h
      simp only [List.set_cons_succ, handsCards_cons]
      rw [← Multiset.coe_add, ← Multiset.coe_add]
      have hih := ih i stp p' h
      rw [add_assoc, hih, ← add_assoc]

theorem addTwoLoop_map_hand (st : Nat) (ps : List Player) (k : Nat) :
    (addTwoLoop st ps k).map Player.hand = ps.map Player.hand := by
  induction ps generalizing k with
  | nil => rfl
  | cons p ps ih =>
    by_cases hk : k ≠ st
    · simp [addTwoLoop, hk, ih]
    · simp [addTwoLoop, hk, ih]

theorem foldl_bump3_map_hand (C : List Nat) (ps : List Player) :
    ((C.foldl (fun ps i => bumpScore ps i 3) ps).map Player.hand) = ps.map Player.hand := by
  induction C generalizing ps with
  | nil => rfl
  | cons c C ih => simp [List.foldl_cons, ih, bumpScore_map_hand]

theorem bucketStage_map_hand (players : List Player) (stOwner : Nat) (correct : List Nat) :
    (bucketStage players stOwner correct).map Player.hand = players.map Player.hand := by
  unfold bucketStage
  by_cases hcond : (correct.length == players.length - 1 || correct.length == 0) = true
  · rw [if_pos hcond]
    exact addTwoLoop_map_hand stOwner players 0
  · rw [if_neg hcond]
    rw [foldl_bump3_map_hand, bumpScore_map_hand]

theorem foolingStep_map_hand (stOwner S : Nat) (board : List Submission)
    (ps : List Player) (g : String × Int) :
    (foolingStep stOwner S board ps g).map Player.hand = ps.map Player.hand := by
  unfold foolingStep
  rcases lookupPlayer ps g.1 with - | j
  · rfl
  · by_cases hS : g.2 = (S : Int)
    · simp [hS]
    · rcases pyGet board g.2 with - | sub
      · simp [hS]
      · by_cases ho : sub.owner = stOwner
        · simp [hS, ho]
        · simp [hS, ho, bumpScore_map_hand]

theorem foldl_fooling_map_hand (stOwner S : Nat) (board : List Submission) :
    ∀ (gs : List (String × Int)) (ps : List Player),
      ((gs.foldl (foolingStep stOwner S board) ps).map Player.hand) = ps.map Player.hand := by
  intro gs
  induction gs with
  | nil => intro ps; rfl
  | cons g gs ih =>
    intro ps
    rw [List.foldl_cons, ih, foolingStep_map_hand]

theorem update_scores_map_hand (players : List Player) (stSub : Submission)
    (board : List Submission) (guesses : List (String × Int)) :
    (update_scores players stSub board guesses).map Player.hand
      = players.map Player.hand := by
  unfold update_scores
  rcases findStorytellerIdx board stSub.card with - | S
  · rfl
  · dsimp only
    by_cases hlen : players.length ≤ 1
    · rw [if_pos hlen]
    · rw [if_neg hlen, foldl_fooling_map_hand, bucketStage_map_hand]

theorem handsCards_congr : ∀ {ps qs : List Player},
    ps.map Player.hand = qs.map Player.hand → handsCards ps = handsCards qs := by
  intro ps
  induction ps with
  | nil =>
    intro qs h
    cases qs with
    | nil => rfl
    | cons q qs => simp at h
  | cons p ps ih =>
    intro qs h
    cases qs with
    | nil => simp at h
    | cons q qs =>
      simp only [List.map_cons, List.cons.injEq] at h
      rw [handsCards_cons, handsCards_cons, h.1, ih h.2]

theorem handsCards_init (names : List String) :
    handsCards (names.map fun n =>
      ({ name := n, score := 0, hand := [], is_ai := isAiName n } : Player)) = [] := by
  induction names with
  | nil => rfl
  | cons n ns ih => simp only [List.map_cons, handsCards_cons, List.nil_append, ih]

theorem allCards_mk (ps : List Player) (deck disc : List Card) (board : List Submission)
    (i hs ms : Nat) (cl : String) :
    allCards ⟨ps, deck, disc, board, i, hs, ms, cl⟩
      = (deck : Multiset Card) + ↑disc + ↑(handsCards ps) + ↑(displayedFilenames board) :=
  rfl

theorem allCards_advance (t : GameState) :
    allCards (advance_storyteller t) = allCards t := rfl

theorem allCards_initial (players : List Player) (deckUsed : List Card) (hs ms : Nat)
    (hplayers : handsCards players = []) :
    allCards (initialGameState players deckUsed hs ms) = (deckUsed : Multiset Card) := by
  unfold initialGameState
  rw [allCards_mk]
  have hrep := replenishPlayers_conserve hs players deckUsed
  rw [hplayers] at hrep
  have hz : ((([] : List Card)) : Multiset Card) = 0 := rfl
  rw [hz, zero_add] at hrep
  show ((replenishPlayers hs players deckUsed).2 : Multiset Card) + ↑([] : List Card)
      + ↑(handsCards (replenishPlayers hs players deckUsed).1)
      + ↑(displayedFilenames []) = ↑deckUsed
  have hz2 : ((displayedFilenames [] : List Card) : Multiset Card) = 0 := rfl
  rw [hz, hz2, add_zero, add_zero, add_comm, hrep]

/-- C6: card-pool conservation. After construction, the multiset of all
cards in the state (draw pile + discard pile + every hand + board) equals
the loaded pool (the directory listing, or the reloaded pool when the
dummy-card fallback ran); and every completed or skipped turn — from a
between-rounds state, whose board is empty — preserves that multiset
exactly (both `random.shuffle` calls are permutations): no card is ever
duplicated or destroyed, and in particular
`|draw| + |discard| + Σ|hand| + |board|` is constant. -/
theorem spec_C6_conservation :
    (∀ (names : List String) (hs ms : Nat) (deck0 : List Card)
        (reload : Option (List Card)) (s : GameState),
      gameInit names hs ms deck0 reload = some s →
      allCards s = (deck0 : Multiset Card) ∨
        ∃ d1, reload = some d1 ∧ allCards s = (d1 : Multiset Card))
    ∧ (∀ (s : GameState) (o : Oracle) (s' : GameState),
      (∀ l, (o.shuffleBoard l).Perm l) →
      (∀ l, (o.shuffleDeck l).Perm l) →
      s.board = [] →
      play_turn s o = some s' →
      allCards s' = allCards s) := by
  constructor
  · intro names hs ms deck0 reload s hinit
    unfold gameInit at hinit
    dsimp only at hinit
    split at hinit
    · rcases reload with - | deck1
      · simp at hinit
      · dsimp only at hinit
        split at hinit
        · simp at hinit
        · simp only [Option.some_inj] at hinit
          subst hinit
          exact Or.inr ⟨deck1, rfl, allCards_initial _ _ _ _ (handsCards_init names)⟩
    · simp only [Option.some_inj] at hinit
      subst hinit
      exact Or.inl (allCards_initial _ _ _ _ (handsCards_init names))
  · intro s o s' hpB hpD hboard hrun
    unfold play_turn at hrun
    by_cases hover : is_game_over s = true
    · rw [if_pos hover] at hrun
      simp only [Option.some_inj] at hrun
      subst hrun
      rfl
    · rw [if_neg hover] at hrun
      rcases hget : s.players.get? s.storyteller_index with - | stp
      · rw [hget] at hrun
        simp at hrun
      · rw [hget] at hrun
        dsimp only at hrun
        rcases hclue : provide_clue stp o with - | oc
        · rw [hclue] at hrun
          simp at hrun
        · rw [hclue] at hrun
          rcases oc with - | ⟨clue, stCard, stp'⟩
          · dsimp only at hrun
            simp only [Option.some_inj] at hrun
            subst hrun
            have hrep := replenish_hands_conserve s.hand_size o.shuffleDeck hpD
              s.players s.deck s.discard_pile
            rw [allCards_mk]
            dsimp only [advance_storyteller]
            show _ = allCards s
            unfold allCards
            rw [hboard]
            have hz : ((displayedFilenames [] : List Card) : Multiset Card) = 0 := rfl
            rw [hz, add_zero, add_zero]
            calc ((replenish_hands s.hand_size o.shuffleDeck s.players s.deck s.discard_pile).2.1 : Multiset Card)
                  + ↑(replenish_hands s.hand_size o.shuffleDeck s.players s.deck s.discard_pile).2.2
                  + ↑(handsCards (replenish_hands s.hand_size o.shuffleDeck s.players s.deck s.discard_pile).1)
                = ↑(handsCards (replenish_hands s.hand_size o.shuffleDeck s.players s.deck s.discard_pile).1)
                  + ↑(replenish_hands s.hand_size o.shuffleDeck s.players s.deck s.discard_pile).2.1
                  + ↑(replenish_hands s.hand_size o.shuffleDeck s.players s.deck s.discard_pile).2.2 := by
                  abel
              _ = ↑(handsCards s.players) + ↑s.deck + ↑s.discard_pile := hrep
              _ = ↑s.deck + ↑s.discard_pile + ↑(handsCards s.players) := by abel
          · dsimp only at hrun
            rcases hsubs : doSubmissions s.storyteller_index o
                (s.players.set s.storyteller_index stp') 0 with - | pr
            · rw [hsubs] at hrun
              simp at hrun
            · rw [hsubs] at hrun
              rcases pr with ⟨players2, subs⟩
              dsimp only at hrun
              rcases hguess : collectGuesses s.storyteller_index subs
                  (displayedFilenames (o.shuffleBoard (⟨s.storyteller_index, stCard⟩ :: subs)))
                  o players2 0 [] with - | guesses
              · rw [hguess] at hrun
                simp at hrun
              · rw [hguess] at hrun
                simp only [Option.some_inj] at hrun
                subst hrun
                rw [allCards_advance, allCards_mk]
                set B := o.shuffleBoard (⟨s.storyteller_index, stCard⟩ :: subs) with hB
                set P3 := update_scores players2 ⟨s.storyteller_index, stCard⟩ B guesses with hP3
                set r := replenish_hands s.hand_size o.shuffleDeck P3 s.deck
                  (s.discard_pile ++ displayedFilenames B) with hr
                have hrep := replenish_hands_conserve s.hand_size o.shuffleDeck hpD P3
                  s.deck (s.discard_pile ++ displayedFilenames B)
                rw [← hr] at hrep
                have hscore : handsCards P3 = handsCards players2 :=
                  handsCards_congr (update_scores_map_hand players2 _ _ guesses)
                have hsubsC := doSubmissions_conserve s.storyteller_index o
                  (s.players.set s.storyteller_index stp') 0 players2 subs hsubs
                have hsetC := set_conserve s.players s.storyteller_index stp stp' hget
                have hclueC := provide_clue_conserve hclue
                rw [← Multiset.singleton_add] at hclueC
                have hBC : ((displayedFilenames B : List Card) : Multiset Card)
                    = ({stCard} : Multiset Card) + ↑(displayedFilenames subs) := by
                  rw [hB]
                  have hperm := (hpB (⟨s.storyteller_index, stCard⟩ :: subs)).map Submission.card
                  have hcoe : ((displayedFilenames
                        (o.shuffleBoard (⟨s.storyteller_index, stCard⟩ :: subs)) : List Card) : Multiset Card)
                      = ↑(displayedFilenames (⟨s.storyteller_index, stCard⟩ :: subs)) :=
                    Multiset.coe_eq_coe.mpr hperm
                  rw [hcoe]
                  show ((stCard :: displayedFilenames subs : List Card) : Multiset Card)
                      = ({stCard} : Multiset Card) + ↑(displayedFilenames subs)
                  rw [← Multiset.cons_coe, Multiset.singleton_add]
                have hcancel : ((handsCards (s.players.set s.storyteller_index stp') : List Card) : Multiset Card)
                    + ({stCard} : Multiset Card) = ↑(handsCards s.players) := by
                  have h1 : ((handsCards (s.players.set s.storyteller_index stp') : List Card) : Multiset Card)
                      + ({stCard} : Multiset Card) + ↑stp'.hand
                      = ((handsCards s.players : List Card) : Multiset Card) + ↑stp'.hand := by
                    calc ((handsCards (s.players.set s.storyteller_index stp') : List Card) : Multiset Card)
                          + ({stCard} : Multiset Card) + ↑stp'.hand
                        = ↑(handsCards (s.players.set s.storyteller_index stp'))
                          + (({stCard} : Multiset Card) + ↑stp'.hand) := by abel
                      _ = ↑(handsCards (s.players.set s.storyteller_index stp')) + ↑stp.hand := by
                          rw [hclueC]
                      _ = ↑(handsCards s.players) + ↑stp'.hand := hsetC
                  exact add_right_cancel h1
                have hz : ((displayedFilenames ([] : List Submission) : List Card) : Multiset Card) = 0 := rfl
                rw [hz, add_zero]
                have hallS : allCards s
                    = (s.deck : Multiset Card) + ↑s.discard_pile + ↑(handsCards s.players) := by
                  unfold allCards
                  rw [hboard, hz, add_zero]
                rw [hallS]
                calc (r.2.1 : Multiset Card) + ↑r.2.2 + ↑(handsCards r.1)
                    = ↑(handsCards r.1) + ↑r.2.1 + ↑r.2.2 := by abel
                  _ = ↑(handsCards P3) + ↑s.deck
                      + ↑(s.discard_pile ++ displayedFilenames B) := hrep
                  _ = ↑(handsCards players2) + ↑s.deck
                      + (↑s.discard_pile + (({stCard} : Multiset Card) + ↑(displayedFilenames subs))) := by
                      rw [hscore, ← Multiset.coe_add, hBC]
                  _ = (↑(handsCards players2) + ↑(displayedFilenames subs))
                      + ({stCard} : Multiset Card) + ↑s.deck + ↑s.discard_pile := by abel
                  _ = ↑(handsCards (s.players.set s.storyteller_index stp'))
                      + ({stCard} : Multiset Card) + ↑s.deck + ↑s.discard_pile := by
                      rw [hsubsC]
                  _ = ↑(handsCards s.players) + ↑s.deck + ↑s.discard_pile := by
                      rw [hcancel]
                  _ = ↑s.deck + ↑s.discard_pile + ↑(handsCards s.players) := by abel

/-- Witness for C6: a concrete 2-player construction and the concrete turn
`play_turn gameC6 oDemo` (identity shuffles) both conserve the pool. -/
theorem spec_C6_conservation_witness :
    (gameInit ["AI-A", "AI-B"] 1 30 ["d1", "d2", "d3"] none = some
        { players := [{ name := "AI-A", score := 0, hand := ["d3"], is_ai := true },
                      { name := "AI-B", score := 0, hand := ["d2"], is_ai := true }],
          deck := ["d1"], discard_pile := [], board := [], storyteller_index := 0,
          hand_size := 1, max_score := 30, current_clue := "" } ∧
      gameC6.board = [] ∧ play_turn gameC6 oDemo = some gameC6After) ∧
    ((allCards { players := [{ name := "AI-A", score := 0, hand := ["d3"], is_ai := true },
                             { name := "AI-B", score := 0, hand := ["d2"], is_ai := true }],
                 deck := ["d1"], discard_pile := [], board := [], storyteller_index := 0,
                 hand_size := 1, max_score := 30, current_clue := "" }
          = ((["d1", "d2", "d3"] : List Card) : Multiset Card) ∨
        ∃ d1, (none : Option (List Card)) = some d1 ∧
          allCards { players := [{ name := "AI-A", score := 0, hand := ["d3"], is_ai := true },
                                 { name := "AI-B", score := 0, hand := ["d2"], is_ai := true }],
                     deck := ["d1"], discard_pile := [], board := [], storyteller_index := 0,
                     hand_size := 1, max_score := 30, current_clue := "" }
            = (d1 : Multiset Card)) ∧
      allCards gameC6After = allCards gameC6) :=
  ⟨⟨by decide, rfl, by decide⟩,
   ⟨spec_C6_conservation.1 ["AI-A", "AI-B"] 1 30 ["d1", "d2", "d3"] none
      { players := [{ name := "AI-A", score := 0, hand := ["d3"], is_ai := true },
                    { name := "AI-B", score := 0, hand := ["d2"], is_ai := true }],
        deck := ["d1"], discard_pile := [], board := [], storyteller_index := 0,
        hand_size := 1, max_score := 30, current_clue := "" } (by decide),
    spec_C6_conservation.2 gameC6 oDemo gameC6After
      (fun l => List.Perm.refl l) (fun l => List.Perm.refl l) rfl (by decide)⟩⟩
